import Mathlib

/-!
A shallow embedding of the Go package `csvencoding` (files `encode.go` and
`decode.go`) and proofs about it.

The embedding mirrors Go's `reflect`-driven code: a runtime value is a pair of
a `GoType` (the static/reflected type) and a `GoValue` (the data).  All
recursive functions recurse on the `GoType`, exactly as the Go code recurses on
the reflected type structure of its argument.  Machine integers are `Int` with
explicit signed-width range checks where `strconv` performs them.  Go panics
(failed type assertions, `NumField` on a non-struct, setting an unaddressable
value, out-of-range indexing) are modelled by the `Outcome.panicked`
constructor; ordinary Go `error` returns are modelled by `Err`.

Not modelled (no claim depends on them): floating-point kinds (IEEE-754
formatting is outside the embedding), underscore digit separators accepted by
`strconv.ParseInt` with base 0 (the encoder never emits them), `time`-style
struct-kind text marshalers (`textualT` models a named non-struct type with
text-marshal capability), pointer-to-hooked-type values, and the `reflect`
panic on calling `Interface()` for unexported embedded fields during encode.
-/

namespace Csvencoding

/-- Outcome of running a piece of Go code that may panic: either a normal
value or an unrecovered runtime panic with its message. -/
inductive Outcome (α : Type) where
  | val (a : α)
  | panicked (msg : String)
  deriving DecidableEq, Repr

/-- Go `error` values produced by the package, kept structured rather than as
formatted strings.  The `wrap*` constructors model the `fmt.Errorf` wrapping
performed in `encode.go` (lines 125, 143, 157, 186); `numError` models
`strconv.NumError` (function name, input, and whether it was a syntax or a
range failure); `cantMarshal` / `cantUnmarshal` model the unsupported-type
errors of `encode.go` line 194 and `decode.go` lines 169/193;
`unexpectedCell` models `decode.go` line 237; `ioEOF` models the `io.EOF`
error of the tabular reader; `conformance` flags a type/value mismatch that
Go's runtime typing makes impossible and exists only to keep the model
total. -/
inductive Err where
  | numError (fn : String) (num : String) (isRange : Bool)
  | ioEOF
  | cantMarshal (desc : String)
  | cantUnmarshal (typeName : String)
  | unexpectedCell (desc : String)
  | wrapStructField (name : String) (value : String) (e : Err)
  | wrapSliceElem (value : String) (e : Err)
  | wrapMapKey (value : String) (e : Err)
  | wrapMapValue (value : String) (e : Err)
  | conformance (desc : String)
  deriving DecidableEq, Repr

/-- True exactly for the errors produced by the breadcrumb wrapping in
`encode.go` (struct field / slice element / map key / map value wrappers). -/
def Err.isWrapped : Err → Bool
  | .wrapStructField _ _ _ => true
  | .wrapSliceElem _ _ => true
  | .wrapMapKey _ _ => true
  | .wrapMapValue _ _ => true
  | _ => false

/-- Signed integer widths supported by the codec: `iw0` is Go `int`
(`strconv` bit size 0, meaning the platform width, 64 here), and `iw8` …
`iw64` are `int8` … `int64`. -/
inductive IntW where
  | iw0 | iw8 | iw16 | iw32 | iw64
  deriving DecidableEq, Repr

/-- Bit size value the decoder passes to `strconv.ParseInt` for a width
(`decode.go` lines 109-137). -/
def IntW.bitSize : IntW → Nat
  | .iw0 => 0
  | .iw8 => 8
  | .iw16 => 16
  | .iw32 => 32
  | .iw64 => 64

/-- Effective number of bits of a width: bit size 0 means the platform
`int`, 64 bits here. -/
def IntW.bits : IntW → Nat
  | .iw0 => 64
  | .iw8 => 8
  | .iw16 => 16
  | .iw32 => 32
  | .iw64 => 64

/-- Static description of one declared struct field: its Go identifier, the
raw `csv` struct-tag string (`reflect.StructField.Tag.Get "csv"`), whether it
is exported (Go: `PkgPath == ""`), and whether it is embedded/anonymous. -/
structure FieldMeta where
  name : String
  tag : String
  exported : Bool
  anonymous : Bool
  deriving DecidableEq, Repr

/-- Reflected Go types the embedding covers.  `hookedT t` is a named type
with underlying type `t` whose method set has both `GetCSV` (the package's
`Getter`) and `SetCSV` (the package's `Setter`); `textualT` is a named
non-struct type implementing `encoding.TextMarshaler` and
`encoding.TextUnmarshaler`.  `uintT` stands for any kind the codec does not
support (Go `uint`: neither `marshal` nor `readStringTo` has a case for
it). -/
inductive GoType where
  | boolT
  | stringT
  | intT (w : IntW)
  | uintT
  | ptrT (elem : GoType)
  | sliceT (elem : GoType)
  | structT (fields : List (FieldMeta × GoType))
  | mapT (key value : GoType)
  | hookedT (underlying : GoType)
  | textualT

/-- Go data, without its type (the type travels alongside as a `GoType`).
`hookedV cells inner` is a value of a `hookedT` type: `cells` is the state
its `GetCSV`/`SetCSV` methods expose (the model hook returns, respectively
stores, this cell list) and `inner` is the underlying-type value.
`textualV s` is a value of a `textualT` type whose `MarshalText` yields `s`
and whose `UnmarshalText` stores its input. -/
inductive GoValue where
  | boolV (b : Bool)
  | stringV (s : String)
  | intV (i : Int)
  | uintV (n : Nat)
  | ptrV (pointee : Option GoValue)
  | sliceV (elems : List GoValue)
  | structV (fields : List GoValue)
  | mapV (entries : List (GoValue × GoValue))
  | hookedV (cells : List String) (inner : GoValue)
  | textualV (text : String)

mutual

/-- Structural equality of Go data, modelling `reflect.DeepEqual` as used by
the encoder's omit-empty zero test (`encode.go` line 98).  (`DeepEqual`
distinguishes a nil slice/map from an empty one; the model's `sliceV []` and
`mapV []` stand for the nil ones, which is what the zero test compares
against.) -/
def goValueBeq : GoValue → GoValue → Bool
  | .boolV a, .boolV b => a == b
  | .stringV a, .stringV b => a == b
  | .intV a, .intV b => a == b
  | .uintV a, .uintV b => a == b
  | .ptrV none, .ptrV none => true
  | .ptrV (some a), .ptrV (some b) => goValueBeq a b
  | .sliceV xs, .sliceV ys => goValueListBeq xs ys
  | .structV xs, .structV ys => goValueListBeq xs ys
  | .mapV xs, .mapV ys => goValuePairsBeq xs ys
  | .hookedV cs a, .hookedV ds b => cs == ds && goValueBeq a b
  | .textualV a, .textualV b => a == b
  | _, _ => false

/-- Pointwise `goValueBeq` on lists. -/
def goValueListBeq : List GoValue → List GoValue → Bool
  | [], [] => true
  | x :: xs, y :: ys => goValueBeq x y && goValueListBeq xs ys
  | _, _ => false

/-- Pointwise `goValueBeq` on entry lists. -/
def goValuePairsBeq : List (GoValue × GoValue) → List (GoValue × GoValue) → Bool
  | [], [] => true
  | (k₁, v₁) :: xs, (k₂, v₂) :: ys =>
    goValueBeq k₁ k₂ && goValueBeq v₁ v₂ && goValuePairsBeq xs ys
  | _, _ => false

end

/-- Modelled from the spec: the package-level default sentinel for
zero-valued omit-empty fields; its defining Go source file is not part of
`src/`, but §3 of the spec fixes the default to the empty string and the
tests rely on it. -/
def DefaultEmptyValue : String := ""

/-- Modelled from the spec: the package-level default sentinel for nil
values; its defining Go source file is not part of `src/`, but §3 of the
spec fixes the default to `"NULL"` and the tests rely on it. -/
def DefaultNilValue : String := "NULL"

/-- The configurable sentinel pair carried by each `Encoder` and `Decoder`
instance. -/
structure Codec where
  EmptyValue : String
  NilValue : String
  deriving DecidableEq, Repr

/-- Sentinels of a freshly constructed instance (`NewEncoder` /
`NewDecoder`). -/
def Codec.default : Codec := ⟨DefaultEmptyValue, DefaultNilValue⟩

/-! ### Models of the `strconv` functions the package calls

`strconv.FormatBool`, `strconv.ParseBool`, `strconv.FormatInt(v, 10)` and
`strconv.ParseInt(v, 0, bitSize)` (the decoder always passes base 0, so base
detection from a `0b`/`0o`/`0x`/leading-`0` body is modelled; the underscore
digit separators Go additionally tolerates with base 0 are not, as noted in
the header). -/

/-- Model of `strconv.FormatBool`. -/
def formatBool (b : Bool) : String := if b then "true" else "false"

/-- Model of `strconv.ParseBool`: exactly the thirteen accepted spellings,
anything else is a syntax `NumError`. -/
def parseBool (s : String) : Except Err Bool :=
  if s = "1" ∨ s = "t" ∨ s = "T" ∨ s = "true" ∨ s = "TRUE" ∨ s = "True" then .ok true
  else if s = "0" ∨ s = "f" ∨ s = "F" ∨ s = "false" ∨ s = "FALSE" ∨ s = "False" then .ok false
  else .error (.numError "ParseBool" s false)

/-- ASCII decimal digit character for a digit value below ten. -/
def charOfDigit (d : Nat) : Char := Char.ofNat (48 + d)

/-- Little-endian base-10 digits, written with explicit fuel so that it is
structurally recursive (and therefore evaluates inside the kernel); with
fuel at least `n` it agrees with `Nat.digits 10 n`. -/
def decDigitsAux : Nat → Nat → List Nat
  | 0, _ => []
  | fuel + 1, n => if n = 0 then [] else n % 10 :: decDigitsAux fuel (n / 10)

/-- Big-endian decimal character rendering of a natural number. -/
def natDecChars (n : Nat) : List Char :=
  if n = 0 then ['0'] else ((decDigitsAux (n + 1) n).map charOfDigit).reverse

/-- Model of `strconv.FormatInt(i, 10)`: optional minus sign followed by the
decimal digits of the magnitude. -/
def formatInt (i : Int) : String :=
  ⟨(if i < 0 then ['-'] else []) ++ natDecChars i.natAbs⟩

/-- Digit value of a character as `strconv` reads it (decimal digits, then
lower/upper-case letters starting at ten); `none` for a non-digit. -/
def digitVal (c : Char) : Option Nat :=
  if '0' ≤ c ∧ c ≤ '9' then some (c.toNat - 48)
  else if 'a' ≤ c ∧ c ≤ 'z' then some (c.toNat - 97 + 10)
  else if 'A' ≤ c ∧ c ≤ 'Z' then some (c.toNat - 65 + 10)
  else none

/-- One step of the digit-accumulation loop of `strconv.ParseUint`: fails on
a non-digit or a digit not below the base. -/
def parseDigitsStep (base : Nat) (acc : Option Nat) (c : Char) : Option Nat :=
  acc.bind fun a => (digitVal c).bind fun d =>
    if d < base then some (a * base + d) else none

/-- Digit-accumulation loop of `strconv.ParseUint` over a digit body. -/
def parseDigits (base : Nat) (cs : List Char) : Option Nat :=
  cs.foldl (parseDigitsStep base) (some 0)

/-- Sign handling of `strconv.ParseInt`: strips one leading `+` or `-` and
reports whether the number is negated. -/
def signSplit : List Char → Bool × List Char
  | [] => (false, [])
  | c :: cs =>
    if c = '+' then (false, cs)
    else if c = '-' then (true, cs)
    else (false, c :: cs)

/-- Base detection of `strconv.ParseUint` when called with base 0: a
`0b`/`0o`/`0x` two-character marker (followed by at least one more
character) selects base 2/8/16 and is dropped; any other leading `0` selects
base 8 with the body kept; otherwise base 10. -/
def baseDetect : List Char → Nat × List Char
  | [] => (10, [])
  | d0 :: ds =>
    if d0 = '0' then
      match ds with
      | d1 :: ds' =>
        if (d1 = 'b' ∨ d1 = 'B') ∧ ds' ≠ [] then (2, ds')
        else if (d1 = 'o' ∨ d1 = 'O') ∧ ds' ≠ [] then (8, ds')
        else if (d1 = 'x' ∨ d1 = 'X') ∧ ds' ≠ [] then (16, ds')
        else (8, d0 :: ds)
      | [] => (8, [d0])
    else (10, d0 :: ds)

/-- Signed range check of `strconv.ParseInt` on the parsed magnitude: a
negated number may reach `2 ^ (bits - 1)`, a positive one only
`2 ^ (bits - 1) - 1`; beyond that a range `NumError` results. -/
def intRangeCheck (s : String) (bits : Nat) (neg : Bool) (n : Nat) : Except Err Int :=
  if neg then
    if n > 2 ^ (bits - 1) then .error (.numError "ParseInt" s true)
    else .ok (-(n : Int))
  else
    if n ≥ 2 ^ (bits - 1) then .error (.numError "ParseInt" s true)
    else .ok (n : Int)

/-- Magnitude of a sign-stripped number body: base detection followed by the
digit-accumulation loop. -/
def parseBody (body : List Char) : Option Nat :=
  parseDigits (baseDetect body).1 (baseDetect body).2

/-- Model of `strconv.ParseInt(s, 0, bitSize)`: sign split, base detection,
digit accumulation, then the signed range check (`bitSize` 0 meaning the
64-bit platform width).  Out-of-range magnitudes give a range `NumError`,
every other failure a syntax one, matching the observable `strconv`
behavior. -/
def parseIntGo (s : String) (bitSize : Nat) : Except Err Int :=
  let bits := if bitSize = 0 then 64 else bitSize
  let sb := signSplit s.toList
  if sb.2.isEmpty then .error (.numError "ParseInt" s false) else
  (parseBody sb.2).elim (.error (.numError "ParseInt" s false))
    (intRangeCheck s bits sb.1)

/-! ### Round-trip facts about the `strconv` models -/

theorem digitVal_charOfDigit {d : Nat} (hd : d < 10) :
    digitVal (charOfDigit d) = some d := by
  interval_cases d <;> decide

theorem charOfDigit_toNat {d : Nat} (hd : d < 10) :
    (charOfDigit d).toNat = 48 + d := by
  interval_cases d <;> decide

theorem foldl_parseDigits_rev (l : List Nat) (hl : ∀ d ∈ l, d < 10) (a : Nat) :
    List.foldl (parseDigitsStep 10) (some a) ((l.map charOfDigit).reverse)
      = some (a * 10 ^ l.length + Nat.ofDigits 10 l) := by
  induction l generalizing a with
  | nil => simp [Nat.ofDigits]
  | cons d t ih =>
    have hd : d < 10 := hl d (by simp)
    have ht : ∀ x ∈ t, x < 10 := fun x hx => hl x (by simp [hx])
    rw [List.map_cons, List.reverse_cons, List.foldl_append, ih ht]
    simp only [List.foldl_cons, List.foldl_nil, parseDigitsStep, Option.bind,
      digitVal_charOfDigit hd, if_pos hd, Nat.ofDigits_cons]
    rw [List.length_cons]
    congr 1
    ring

theorem decDigitsAux_eq_digits : ∀ fuel n, n ≤ fuel → decDigitsAux fuel n = Nat.digits 10 n := by
  intro fuel
  induction fuel with
  | zero => intro n hn; interval_cases n; simp [decDigitsAux]
  | succ f ih =>
    intro n hn
    unfold decDigitsAux
    by_cases h0 : n = 0
    · simp [h0]
    · rw [if_neg h0, Nat.digits_def' (b := 10) (by norm_num) (by omega),
        ih (n / 10) (by have := Nat.div_lt_self (by omega : 0 < n) (by norm_num : 1 < 10); omega)]

theorem natDecChars_eq_digits {n : Nat} (h : n ≠ 0) :
    natDecChars n = ((Nat.digits 10 n).map charOfDigit).reverse := by
  unfold natDecChars
  rw [if_neg h, decDigitsAux_eq_digits (n + 1) n (Nat.le_succ n)]

theorem parseDigits_natDecChars (n : Nat) :
    parseDigits 10 (natDecChars n) = some n := by
  by_cases h : n = 0
  · subst h; decide
  · unfold parseDigits
    rw [natDecChars_eq_digits h,
      foldl_parseDigits_rev _ (fun d hd => Nat.digits_lt_base (by norm_num) hd) 0,
      Nat.ofDigits_digits]
    simp

theorem natDecChars_of_ne_zero {n : Nat} (hn : n ≠ 0) :
    ∃ c cs, natDecChars n = c :: cs ∧ 49 ≤ c.toNat ∧ c.toNat ≤ 57 := by
  have hL : Nat.digits 10 n ≠ [] := Nat.digits_ne_nil_iff_ne_zero.mpr hn
  have hrev : (Nat.digits 10 n).reverse ≠ [] := by
    simpa using hL
  obtain ⟨hd, tl, htl⟩ := List.exists_cons_of_ne_nil hrev
  have hmem : hd ∈ Nat.digits 10 n := by
    have : hd ∈ (Nat.digits 10 n).reverse := by rw [htl]; exact List.mem_cons_self _ _
    simpa using this
  have hd10 : hd < 10 := Nat.digits_lt_base (by norm_num) hmem
  have hdne : hd ≠ 0 := by
    have hlast : (Nat.digits 10 n).getLast hL ≠ 0 := Nat.getLast_digit_ne_zero 10 hn
    have h1 : (Nat.digits 10 n).reverse.head? = some hd := by rw [htl]; rfl
    have h2 : (Nat.digits 10 n).getLast? = some hd := by
      rw [← List.head?_reverse]; exact h1
    have h3 : (Nat.digits 10 n).getLast? = some ((Nat.digits 10 n).getLast hL) :=
      List.getLast?_eq_getLast _ hL
    intro h0
    rw [h3] at h2
    exact hlast (by injection h2 with h4; omega)
  refine ⟨charOfDigit hd, tl.map charOfDigit, ?_, ?_, ?_⟩
  · rw [natDecChars_eq_digits hn, ← List.map_reverse, htl, List.map_cons]
  · rw [charOfDigit_toNat hd10]; omega
  · rw [charOfDigit_toNat hd10]; omega

theorem bits_of_bitSize (w : IntW) :
    (if w.bitSize = 0 then 64 else w.bitSize) = w.bits := by
  cases w <;> rfl

theorem signSplit_cons_nonsign {c : Char} {cs : List Char}
    (h1 : c ≠ '+') (h2 : c ≠ '-') : signSplit (c :: cs) = (false, c :: cs) := by
  simp [signSplit, h1, h2]

theorem signSplit_minus (cs : List Char) : signSplit ('-' :: cs) = (true, cs) := by
  simp [signSplit]

theorem baseDetect_nonzero {c : Char} {cs : List Char} (h : c ≠ '0') :
    baseDetect (c :: cs) = (10, c :: cs) := by
  simp [baseDetect, h]

theorem parseBody_natDecChars (n : Nat) : parseBody (natDecChars n) = some n := by
  by_cases h0 : n = 0
  · subst h0; decide
  · obtain ⟨c, cs, hcons, hlo, hhi⟩ := natDecChars_of_ne_zero h0
    have hc3 : c ≠ '0' := fun h => by rw [h] at hlo; revert hlo; decide
    unfold parseBody
    rw [hcons, baseDetect_nonzero hc3]
    show parseDigits 10 (c :: cs) = some n
    rw [← hcons, parseDigits_natDecChars n]

/-- `strconv.ParseInt` with base 0 is a left inverse of
`strconv.FormatInt(·, 10)` on every value within the signed range of the
requested bit size. -/
theorem parseIntGo_formatInt (w : IntW) (i : Int)
    (h1 : -((2 ^ (w.bits - 1) : Nat) : Int) ≤ i)
    (h2 : i < ((2 ^ (w.bits - 1) : Nat) : Int)) :
    parseIntGo (formatInt i) w.bitSize = .ok i := by
  have hbits : (8 : Nat) ≤ w.bits := by cases w <;> decide
  rcases le_or_lt 0 i with hpos | hneg
  · -- non-negative: the rendering is the bare digit string
    set n := i.natAbs with hn
    have hform : (formatInt i).toList = natDecChars n := by
      unfold formatInt
      rw [if_neg (by omega)]
      rfl
    by_cases h0 : n = 0
    · have hi : i = 0 := by omega
      subst hi
      cases w <;> rfl
    · obtain ⟨c, cs, hcons, hlo, hhi⟩ := natDecChars_of_ne_zero h0
      have hc1 : c ≠ '+' := fun h => by rw [h] at hlo; revert hlo; decide
      have hc2 : c ≠ '-' := fun h => by rw [h] at hlo; revert hlo; decide
      unfold parseIntGo
      rw [hform, hcons, signSplit_cons_nonsign hc1 hc2]
      simp only [List.isEmpty_cons, Bool.false_eq_true, if_false]
      rw [← hcons, parseBody_natDecChars n, Option.elim_some, intRangeCheck,
        bits_of_bitSize]
      rw [if_neg (by decide), if_neg (by omega)]
      congr 1
      omega
  · -- negative: a minus sign followed by the digit string of the magnitude
    set n := i.natAbs with hn
    have h0 : n ≠ 0 := by omega
    have hform : (formatInt i).toList = '-' :: natDecChars n := by
      unfold formatInt
      rw [if_pos hneg]
      rfl
    have hne : natDecChars n ≠ [] := by
      obtain ⟨c, cs, hcons, -, -⟩ := natDecChars_of_ne_zero h0
      rw [hcons]; exact List.cons_ne_nil _ _
    unfold parseIntGo
    rw [hform, signSplit_minus]
    rw [if_neg (by simpa [List.isEmpty_iff] using hne)]
    rw [parseBody_natDecChars n, Option.elim_some, intRangeCheck, bits_of_bitSize]
    rw [if_pos rfl, if_neg (by omega)]
    congr 1
    omega

/-- `strconv.ParseBool` is a left inverse of `strconv.FormatBool`. -/
theorem parseBool_formatBool (b : Bool) : parseBool (formatBool b) = .ok b := by
  cases b <;> rfl

/-! ### Struct-tag handling and reflection helpers -/

/-- Splitting a character list at every occurrence of a separator; the
result always has one more part than there are separators (so the empty
input yields one empty part, exactly like Go's `strings.Split`). -/
def splitChar (sep : Char) : List Char → List (List Char)
  | [] => [[]]
  | c :: cs =>
    if c = sep then [] :: splitChar sep cs
    else
      match splitChar sep cs with
      | [] => [[c]]
      | h :: t => (c :: h) :: t

/-- Model of `strings.Split(s, sep)` for the single-character separators the
package uses (`","` and `"."`). -/
def splitGo (sep : Char) (s : String) : List String :=
  (splitChar sep s.toList).map List.asString

/-- `strings.Split(tag, ",")` on the `csv` tag (`encode.go` line 173,
`decode.go` line 213). -/
def tagParts (tag : String) : List String := splitGo ',' tag

/-- Field name from the tag: `key[0]` (never out of range because `Split`
yields at least one part). -/
def tagName (tag : String) : String := (tagParts tag).headD ""

/-- Whether the tag requests omit-empty: `len(key) > 1 && key[1] ==
"omitEmpty"` (`encode.go` line 176). -/
def tagOmitEmpty (tag : String) : Bool :=
  match tagParts tag with
  | _ :: second :: _ => second = "omitEmpty"
  | _ => false

/-- Field-skip test shared by `encode.go` line 179 and `decode.go` line 216:
tag name `-`, or unexported and not embedded. -/
def skipField (m : FieldMeta) : Bool :=
  tagName m.tag = "-" || (!m.exported && !m.anonymous)

/-- ASCII lower-casing of one character. -/
def lowerChar (c : Char) : Char :=
  if 65 ≤ c.toNat ∧ c.toNat ≤ 90 then Char.ofNat (c.toNat + 32) else c

/-- Model of `strings.ToLower` as the decoder applies it to Go field
identifiers (which are ASCII). -/
def toLowerGo (s : String) : String := (s.toList.map lowerChar).asString

/-- Reflection kinds relevant to the codec's dispatch; a named type
(`hookedT`) has the kind of its underlying type, and `textualT` models a
named non-struct text type (kind `kOther`). -/
inductive Kind where
  | kBool | kString | kInt | kUint | kPtr | kSlice | kStruct | kMap | kOther
  deriving DecidableEq, Repr

/-- Model of `reflect.Value.Kind` on the embedded types. -/
def kindOf : GoType → Kind
  | .boolT => .kBool
  | .stringT => .kString
  | .intT _ => .kInt
  | .uintT => .kUint
  | .ptrT _ => .kPtr
  | .sliceT _ => .kSlice
  | .structT _ => .kStruct
  | .mapT _ _ => .kMap
  | .hookedT t => kindOf t
  | .textualT => .kOther

/-- Coarse model of `reflect.Type.String`, used only inside error values. -/
def typeName : GoType → String
  | .boolT => "bool"
  | .stringT => "string"
  | .intT .iw0 => "int"
  | .intT .iw8 => "int8"
  | .intT .iw16 => "int16"
  | .intT .iw32 => "int32"
  | .intT .iw64 => "int64"
  | .uintT => "uint"
  | .ptrT t => "*" ++ typeName t
  | .sliceT t => "[]" ++ typeName t
  | .structT _ => "struct"
  | .mapT k v => "map[" ++ typeName k ++ "]" ++ typeName v
  | .hookedT t => "named " ++ typeName t
  | .textualT => "textual"

/-- Coarse stand-in for `fmt`'s `%v` rendering used inside the encoder's
wrapped errors; no theorem depends on its exact text. -/
def display : GoValue → String
  | .boolV b => formatBool b
  | .stringV s => s
  | .intV i => formatInt i
  | .uintV n => formatInt n
  | .ptrV _ => "pointer"
  | .sliceV _ => "slice"
  | .structV _ => "struct"
  | .mapV _ => "map"
  | .hookedV _ _ => "hooked"
  | .textualV s => s

mutual

/-- Model of `reflect.Zero` / the value a fresh `reflect.New` points at. -/
def zeroOf : GoType → GoValue
  | .boolT => .boolV false
  | .stringT => .stringV ""
  | .intT _ => .intV 0
  | .uintT => .uintV 0
  | .ptrT _ => .ptrV none
  | .sliceT _ => .sliceV []
  | .structT fs => .structV (zeroOfFields fs)
  | .mapT _ _ => .mapV []
  | .hookedT t => .hookedV [] (zeroOf t)
  | .textualT => .textualV ""

/-- Zero values of a struct's fields, in declaration order. -/
def zeroOfFields : List (FieldMeta × GoType) → List GoValue
  | [] => []
  | f :: fs => zeroOf f.2 :: zeroOfFields fs

end

/-! ### The encoder: `Encoder.marshal` (`encode.go` lines 62-196) -/

/-- Nil expansion for a nil pointer to struct (`encode.go` lines 80-85):
one `NilValue` cell appended per field with empty `PkgPath`, i.e. per
exported field — the `csv` tag is not consulted and nested field types are
not expanded. -/
def nilCells (cfg : Codec) : List (FieldMeta × GoType) → List String
  | [] => []
  | (m, _) :: fs =>
    if m.exported then cfg.NilValue :: nilCells cfg fs else nilCells cfg fs

mutual

/-- Model of `Encoder.marshal`.  The two leading cases are the
`indirectGetter` / `indirectTextMarshaler` probes (lines 64-74), which win
before any other handling; then nil-pointer expansion and pointer
dereference (lines 76-92); the rest is `marshalAfterPtr`. -/
def marshal (cfg : Codec) (t : GoType) (v : GoValue) (omitEmpty : Bool) :
    Except Err (List String) :=
  match t, v with
  | .hookedT _, .hookedV cells _ => .ok cells
  | .textualT, .textualV s => .ok [s]
  | .ptrT e, .ptrV p =>
    match p with
    | none =>
      match e with
      | .structT fs => .ok (nilCells cfg fs)
      | _ => .ok [cfg.NilValue]
    | some inner => marshalAfterPtr cfg e inner omitEmpty
  | t', v' => marshalAfterPtr cfg t' v' omitEmpty
termination_by (sizeOf t, 2, 0)

/-- Body of `Encoder.marshal` after pointer handling: the
`reflect.DeepEqual` omit-empty test (lines 96-100) and the kind switch
(lines 102-195).  A named (`hookedT`) value reaching this point (only
possible through a pointer in the model) dispatches on its underlying kind,
and `uint` has no case, so it falls to the unsupported-type default. -/
def marshalAfterPtr (cfg : Codec) (t : GoType) (v : GoValue) (omitEmpty : Bool) :
    Except Err (List String) :=
  if goValueBeq v (zeroOf t) && omitEmpty then .ok [cfg.EmptyValue]
  else
    match t, v with
    | .boolT, .boolV b => .ok [formatBool b]
    | .stringT, .stringV s => .ok [s]
    | .intT _, .intV i => .ok [formatInt i]
    | .sliceT e, .sliceV xs =>
      (marshalSlice cfg e xs).map fun cells => [String.intercalate "," cells]
    | .mapT kt vt, .mapV entries =>
      (marshalMap cfg kt vt entries).map fun cells => [String.intercalate "," cells]
    | .structT fs, .structV vs => marshalFields cfg fs vs
    | .hookedT u, .hookedV _ inner => marshalAfterPtr cfg u inner omitEmpty
    | .textualT, .textualV s => .ok [s]
    | .uintT, _ => .error (.cantMarshal "uint")
    | t', _ => .error (.cantMarshal (typeName t'))
termination_by (sizeOf t, 1, 0)

/-- Slice loop of `marshal` (lines 115-134): each element is marshalled
with omit-empty off, a failure is wrapped with the element value, and each
element's own cells are joined with commas. -/
def marshalSlice (cfg : Codec) (e : GoType) (elems : List GoValue) :
    Except Err (List String) :=
  match elems with
  | [] => .ok []
  | x :: xs =>
    match marshal cfg e x false with
    | .error err => .error (.wrapSliceElem (display x) err)
    | .ok cells => (marshalSlice cfg e xs).map (String.intercalate "," cells :: ·)
termination_by (sizeOf (GoType.sliceT e), 0, sizeOf elems)

/-- Map loop of `marshal` (lines 136-165): each entry becomes
`keyStr:valueStr`; key and value failures are wrapped.  (Go iterates map
entries in unspecified order; the model iterates the entry list in
order.) -/
def marshalMap (cfg : Codec) (kt vt : GoType) (entries : List (GoValue × GoValue)) :
    Except Err (List String) :=
  match entries with
  | [] => .ok []
  | (k, v) :: rest =>
    match marshal cfg kt k false with
    | .error err => .error (.wrapMapKey (display k) err)
    | .ok kc =>
      match marshal cfg vt v false with
      | .error err => .error (.wrapMapValue (display v) err)
      | .ok vc =>
        (marshalMap cfg kt vt rest).map
          ((String.intercalate "," kc ++ ":" ++ String.intercalate "," vc) :: ·)
termination_by (sizeOf (GoType.mapT kt vt), 0, sizeOf entries)

/-- Struct-field loop of `marshal` (lines 167-191): skipped fields
contribute nothing, every other field is marshalled with its own omit-empty
flag, failures are wrapped with the field's Go name and value, and the
resulting cells are concatenated in declaration order. -/
def marshalFields (cfg : Codec) (fields : List (FieldMeta × GoType))
    (vals : List GoValue) : Except Err (List String) :=
  match fields, vals with
  | [], _ => .ok []
  | _ :: _, [] => .error (.conformance "struct value shorter than its type")
  | (m, ft) :: fs, x :: xs =>
    if skipField m then marshalFields cfg fs xs
    else
      match marshal cfg ft x (tagOmitEmpty m.tag) with
      | .error err => .error (.wrapStructField m.name (display x) err)
      | .ok cells => (marshalFields cfg fs xs).map (cells ++ ·)
termination_by (sizeOf (GoType.structT fields), 0, 0)

end

/-! ### `CellValues`, the dotted-path tree (`decode.go` lines 246-277)

Go's `CellValues` is a `map[string]interface{}` whose values are either a
`string` or a nested `*CellValues`.  The model is an association list (the
decoder only ever looks entries up by key and assigns by key, so ordering is
irrelevant and keys stay unique). -/

/-- One stored value of a `CellValues` map: a terminal string cell or a
nested tree. -/
inductive Cell where
  | leaf (s : String)
  | node (entries : List (String × Cell))

/-- Model of `CellValues.Get` (map lookup). -/
def cvGet (vs : List (String × Cell)) (key : String) : Option Cell :=
  match vs with
  | [] => none
  | (k, c) :: rest => if k = key then some c else cvGet rest key

/-- Map assignment `vs[key] = c`: replaces an existing binding or appends a
new one. -/
def cvUpdate (vs : List (String × Cell)) (key : String) (c : Cell) :
    List (String × Cell) :=
  match vs with
  | [] => [(key, c)]
  | (k, c') :: rest =>
    if k = key then (k, c) :: rest else (k, c') :: cvUpdate rest key c

/-- Model of `CellValues.Set` on a pre-split key.  Go pops one segment per
recursion with `strings.SplitN(key, ".", 2)`, which visits exactly the
segments of `strings.Split(key, ".")` in order, so the model recurses over
the segment list.  At the terminus the string value is assigned
unconditionally (overwriting whatever was there); descending into an
existing binding that is a *string* fails Go's `.(*CellValues)` type
assertion, an unrecovered panic. -/
def cvSetSegs (vs : List (String × Cell)) (segs : List String) (value : String) :
    Outcome (List (String × Cell)) :=
  match segs with
  | [] => .val vs
  | [k] => .val (cvUpdate vs k (.leaf value))
  | k :: rest =>
    match cvGet vs k with
    | some (.leaf _) =>
      .panicked "interface conversion: interface is string, not *csvencoding.CellValues"
    | some (.node sub) =>
      match cvSetSegs sub rest value with
      | .val sub' => .val (cvUpdate vs k (.node sub'))
      | .panicked m => .panicked m
    | none =>
      match cvSetSegs [] rest value with
      | .val sub' => .val (cvUpdate vs k (.node sub'))
      | .panicked m => .panicked m

/-- Splitting a dotted header path into its segments
(`strings.SplitN(key, ".", 2)` applied recursively visits exactly these
segments in order). -/
def pathSegments (key : String) : List String := splitGo '.' key

/-- Model of `CellValues.Set` on the raw dotted key. -/
def cvSet (vs : List (String × Cell)) (key value : String) :
    Outcome (List (String × Cell)) :=
  cvSetSegs vs (pathSegments key) value

/-- The header loop of `Decode` (lines 292-295): inserts `(key, r[i])` for
each header column; `r[i]` panics when the row has fewer cells than the
header. -/
def buildCells (header row : List String) (acc : List (String × Cell)) :
    Outcome (List (String × Cell)) :=
  match header, row with
  | [], _ => .val acc
  | _ :: _, [] => .panicked "runtime error: index out of range"
  | k :: ks, c :: cs =>
    match cvSet acc k c with
    | .val acc' => buildCells ks cs acc'
    | .panicked m => .panicked m

/-! ### The decoder's leaf assignment: `Decoder.readStringTo`
(`decode.go` lines 68-173)

Decoding functions carry a `canSet` flag modelling `reflect`
addressability: `false` for a value reached from a non-pointer top-level
argument, `true` once a pointer has been dereferenced.  Any `Set…` call on
an unaddressable value is a `reflect` panic.  Hook detection
(`indirectSetter` / `indirectTextUnmarshaler`) needs the addressable
reference form for the pointer-receiver methods the modelled hook types
declare, so it fails on unaddressable values and the kind switch is reached
instead. -/

mutual

/-- Model of `Decoder.readStringTo`: the `NilValue` check (returning with
the field untouched) precedes everything; a pointer field is then rebound to
a freshly instantiated pointee — before the `EmptyValue` check — and
assignment continues inside the pointee (`readStringCore`). -/
def readStringTo (cfg : Codec) (canSet : Bool) (t : GoType) (old : GoValue)
    (value : String) : Outcome (GoValue × Option Err) :=
  if value = cfg.NilValue then .val (old, none)
  else
    match t with
    | .ptrT e =>
      if canSet then
        match readStringCore cfg true e (zeroOf e) value with
        | .val (inner, err) => .val (.ptrV (some inner), err)
        | .panicked m => .panicked m
      else .panicked "reflect: reflect.Value.Set using unaddressable value"
    | t' => readStringCore cfg canSet t' old value
termination_by (sizeOf t, 2, 0)

/-- Continuation of `readStringTo` after pointer handling: the `EmptyValue`
check (line 86) leaves the — possibly freshly instantiated — target at its
zero value; then the `SetCSV` and `UnmarshalText` hook probes (lines
91-103); then the kind switch. -/
def readStringCore (cfg : Codec) (canSet : Bool) (t : GoType) (old : GoValue)
    (value : String) : Outcome (GoValue × Option Err) :=
  if value = cfg.EmptyValue then .val (old, none)
  else
    match t, old with
    | .hookedT u, .hookedV _ inner =>
      if canSet then .val (.hookedV [value] inner, none)
      else
        match readStringSwitch cfg canSet u inner value with
        | .val (inner', err) => .val (.hookedV [] inner', err)
        | .panicked m => .panicked m
    | .textualT, .textualV _ =>
      if canSet then .val (.textualV value, none)
      else .val (old, some (.cantUnmarshal (typeName .textualT)))
    | t', old' => readStringSwitch cfg canSet t' old' value
termination_by (sizeOf t, 1, 0)

/-- The kind switch of `readStringTo` (lines 105-170): scalar parses happen
before the panicking `Set…` call, so a conversion error is returned even for
an unaddressable field, while a successful parse into an unaddressable field
panics; a slice parses every comma-separated part into a fresh slice and
commits it only after all parts succeeded; every kind without a case
(pointer-to-pointer, struct, map, `uint`, …) returns the unsupported-type
error. -/
def readStringSwitch (cfg : Codec) (canSet : Bool) (t : GoType) (old : GoValue)
    (value : String) : Outcome (GoValue × Option Err) :=
  match t with
  | .stringT =>
    if canSet then .val (.stringV value, none)
    else .panicked "reflect: reflect.Value.SetString using unaddressable value"
  | .intT w =>
    match parseIntGo value w.bitSize with
    | .error e => .val (old, some e)
    | .ok i =>
      if canSet then .val (.intV i, none)
      else .panicked "reflect: reflect.Value.SetInt using unaddressable value"
  | .boolT =>
    match parseBool value with
    | .error e => .val (old, some e)
    | .ok b =>
      if canSet then .val (.boolV b, none)
      else .panicked "reflect: reflect.Value.SetBool using unaddressable value"
  | .sliceT e =>
    match readSliceElems cfg e (splitGo ',' value) with
    | .panicked m => .panicked m
    | .val (.error err) => .val (old, some err)
    | .val (.ok elems) =>
      if canSet then .val (.sliceV elems, none)
      else .panicked "reflect: reflect.Value.Set using unaddressable value"
  | t' => .val (old, some (.cantUnmarshal (typeName t')))
termination_by (sizeOf t, 0, 0)

/-- Element loop of the slice case (lines 160-164): each comma-separated
part is assigned into the zeroed element of the fresh slice (slice elements
are always addressable); the first failure aborts the loop and the fresh
slice is discarded. -/
def readSliceElems (cfg : Codec) (e : GoType) (parts : List String) :
    Outcome (Except Err (List GoValue)) :=
  match parts with
  | [] => .val (.ok [])
  | p :: ps =>
    match readStringTo cfg true e (zeroOf e) p with
    | .panicked m => .panicked m
    | .val (_, some err) => .val (.error err)
    | .val (v, none) =>
      match readSliceElems cfg e ps with
      | .val (.ok vs) => .val (.ok (v :: vs))
      | other => other
termination_by (sizeOf e, 3, sizeOf parts)

end

/-! ### Structural decoding: `Decoder.readCellValuesTo` and
`Decoder.readStructTo` (`decode.go` lines 175-244) -/

mutual

/-- Model of `Decoder.readCellValuesTo`: a pointer field is rebound to a
fresh pointee (a `Set`, panicking on an unaddressable field) and decoding
continues inside it; then only the struct kind is supported — everything
else, including a map-kind named type with a `SetCSV` hook, falls to the
unsupported-type error (the hook is never consulted here).  The dead
`dec.err` re-check of lines 195-197 (always nil at this point within a
`Decode` call) is not modelled. -/
def readCellValuesTo (cfg : Codec) (canSet : Bool) (t : GoType) (old : GoValue)
    (values : List (String × Cell)) : Outcome (GoValue × Option Err) :=
  match t with
  | .ptrT e =>
    if canSet then
      if kindOf e = .kStruct then
        match readStructTo cfg true e (zeroOf e) values with
        | .val (inner', err) => .val (.ptrV (some inner'), err)
        | .panicked m => .panicked m
      else .val (.ptrV (some (zeroOf e)), some (.cantUnmarshal (typeName e)))
    else .panicked "reflect: reflect.Value.Set using unaddressable value"
  | t' =>
    if kindOf t' = .kStruct then readStructTo cfg canSet t' old values
    else .val (old, some (.cantUnmarshal (typeName t')))
termination_by (sizeOf t, 2, 0)

/-- Model of `Decoder.readStructTo`: one pointer dereference (lines
203-205; a nil pointer leaves an invalid `reflect.Value` whose use
panics), then the field loop over the struct's declared fields. -/
def readStructTo (cfg : Codec) (canSet : Bool) (t : GoType) (old : GoValue)
    (values : List (String × Cell)) : Outcome (GoValue × Option Err) :=
  match t, old with
  | .ptrT e, .ptrV (some inner) =>
    match readStructBody cfg true e inner values with
    | .val (inner', err) => .val (.ptrV (some inner'), err)
    | .panicked m => .panicked m
  | .ptrT _, .ptrV none => .panicked "reflect: call of reflect.Value.Type on zero Value"
  | .ptrT _, _ => .val (old, some (.conformance "pointer value expected"))
  | t', old' => readStructBody cfg canSet t' old' values
termination_by (sizeOf t, 1, 0)

/-- Field iteration of `readStructTo` on a (possibly named) struct type:
`NumField` on any non-struct kind is a `reflect` panic. -/
def readStructBody (cfg : Codec) (canSet : Bool) (t : GoType) (old : GoValue)
    (values : List (String × Cell)) : Outcome (GoValue × Option Err) :=
  match t, old with
  | .hookedT u, .hookedV cs inner =>
    match readStructBody cfg canSet u inner values with
    | .val (inner', err) => .val (.hookedV cs inner', err)
    | .panicked m => .panicked m
  | .structT fs, .structV vs =>
    match readFieldsTo cfg canSet fs vs values with
    | .val (vs', err) => .val (.structV vs', err)
    | .panicked m => .panicked m
  | .hookedT _, _ => .val (old, some (.conformance "named value expected"))
  | .structT _, _ => .val (old, some (.conformance "struct value expected"))
  | t', _ => .panicked ("reflect: NumField of " ++ typeName t' ++ " value")
termination_by (sizeOf t, 0, 0)

/-- The per-field loop of `readStructTo` (lines 209-241): skipped fields
are left untouched; the effective name is the tag name or the lower-cased
Go identifier; an embedded field recurses into the same tree (splice); any
other field looks its effective name up — absence leaves the field
untouched, a subtree routes to `readCellValuesTo`, a leaf string to
`readStringTo`; the first failure returns at once, leaving the remaining
fields untouched.  (The `unexpected type` default of line 237 cannot arise:
a `Cell` is always one of the two handled shapes.) -/
def readFieldsTo (cfg : Codec) (canSet : Bool)
    (fields : List (FieldMeta × GoType)) (vals : List GoValue)
    (values : List (String × Cell)) : Outcome (List GoValue × Option Err) :=
  match fields, vals with
  | [], vs => .val (vs, none)
  | _ :: _, [] => .val ([], some (.conformance "struct value shorter than its type"))
  | (m, ft) :: fs, x :: xs =>
    if skipField m then
      match readFieldsTo cfg canSet fs xs values with
      | .val (xs', err) => .val (x :: xs', err)
      | .panicked msg => .panicked msg
    else if m.anonymous then
      match readStructTo cfg canSet ft x values with
      | .panicked msg => .panicked msg
      | .val (x', some err) => .val (x' :: xs, some err)
      | .val (x', none) =>
        match readFieldsTo cfg canSet fs xs values with
        | .val (xs', err) => .val (x' :: xs', err)
        | .panicked msg => .panicked msg
    else
      let fieldName := if tagName m.tag = "" then toLowerGo m.name else tagName m.tag
      match cvGet values fieldName with
      | none =>
        match readFieldsTo cfg canSet fs xs values with
        | .val (xs', err) => .val (x :: xs', err)
        | .panicked msg => .panicked msg
      | some (.node sub) =>
        match readCellValuesTo cfg canSet ft x sub with
        | .panicked msg => .panicked msg
        | .val (x', some err) => .val (x' :: xs, some err)
        | .val (x', none) =>
          match readFieldsTo cfg canSet fs xs values with
          | .val (xs', err) => .val (x' :: xs', err)
          | .panicked msg => .panicked msg
      | some (.leaf s) =>
        match readStringTo cfg canSet ft x s with
        | .panicked msg => .panicked msg
        | .val (x', some err) => .val (x' :: xs, some err)
        | .val (x', none) =>
          match readFieldsTo cfg canSet fs xs values with
          | .val (xs', err) => .val (x' :: xs', err)
          | .panicked msg => .panicked msg
termination_by (sizeOf fields, 3, 0)

end

/-! ### The `Decode` entry point and the sticky-error session state

`decodeRow` models the body of `Decoder.Decode` (lines 290-304) once a row
is in hand: build the `CellValues` tree from header and row, then populate
the target.  `reflect.ValueOf(i)` is never addressable itself, so the root
call passes `canSet = false`; only dereferencing a pointer makes the target
settable. -/
def decodeRow (cfg : Codec) (header row : List String) (t : GoType)
    (v : GoValue) : Outcome (GoValue × Option Err) :=
  match buildCells header row [] with
  | .panicked m => .panicked m
  | .val values => readStructTo cfg false t v values

/-- A `Decoder` instance: the wrapped reader's pending rows, the header
captured at construction, the sticky error, and the sentinels.  `Decode`
receives the instance through a *pointer* receiver, so updates to `err`
persist. -/
structure DecoderState where
  rows : List (List String)
  header : List String
  err : Option Err
  cfg : Codec

/-- Model of `Decoder.Decode` (lines 279-305): a stored error short-circuits
everything; a reader failure (here: end of input) is stored and returned;
otherwise the row is decoded and any failure is stored in the instance. -/
def decoderDecode (d : DecoderState) (t : GoType) (v : GoValue) :
    Outcome ((GoValue × Option Err) × DecoderState) :=
  match d.err with
  | some e => .val ((v, some e), d)
  | none =>
    match d.rows with
    | [] => .val ((v, some .ioEOF), { d with err := some .ioEOF })
    | r :: rest =>
      match decodeRow d.cfg d.header r t v with
      | .panicked m => .panicked m
      | .val (v', err) => .val ((v', err), { d with rows := rest, err := err })

/-- An `Encoder` instance: rows already written through the shared
`csv.Writer` pointer, the sticky error field, and the sentinels. -/
structure EncoderState where
  written : List (List String)
  err : Option Err
  cfg : Codec

/-- A freshly constructed `NewEncoder` with the default sentinels. -/
def newEncoderState : EncoderState := ⟨[], none, Codec.default⟩

/-- Model of `Encoder.Encode` (`encode.go` lines 198-215).  `Encode` is
declared on a *value* receiver, so the two `enc.err = …` assignments hit a
copy of the instance that is discarded when the call returns: only the
write through the shared `*csv.Writer` persists (modelled as always
succeeding, as for the buffer-backed writers of the tests).  The returned
error is computed correctly, but the caller's `EncoderState` keeps the
`err` it had before the call. -/
def encoderEncode (s : EncoderState) (t : GoType) (v : GoValue) :
    Option Err × EncoderState :=
  match s.err with
  | some e => (some e, s)
  | none =>
    match marshal s.cfg t v false with
    | .error e => (some e, s)
    | .ok cells => (none, { s with written := s.written ++ [cells] })

/-- A type/value pair of one of the single-cell scalar kinds handled by the
kind switches of both `marshal` and `readStringTo` (floating-point kinds are
outside the embedding, see the header). -/
def scalarCell : GoType → GoValue → Bool
  | .boolT, .boolV _ => true
  | .stringT, .stringV _ => true
  | .intT _, .intV _ => true
  | _, _ => false

/-- Round trip of a single scalar cell under the default sentinels: encode
the value, then decode the produced cell into a freshly zeroed field of the
same type (`none` if encoding fails or does not yield exactly one cell). -/
def scalarRoundTrip (t : GoType) (v : GoValue) :
    Option (Outcome (GoValue × Option Err)) :=
  match marshal Codec.default t v false with
  | .ok [c] => some (readStringTo Codec.default true t (zeroOf t) c)
  | _ => none

deriving instance DecidableEq for Except

/-! ## Shared unfolding lemmas -/

/-- For a non-pointer, non-hooked, non-textual field and a non-sentinel
cell, `readStringTo` is exactly its kind switch. -/
theorem readStringTo_plain (cfg : Codec) (canSet : Bool) (t : GoType)
    (old : GoValue) (value : String)
    (hnil : value ≠ cfg.NilValue) (hemp : value ≠ cfg.EmptyValue)
    (hptr : ∀ e, t ≠ .ptrT e) (hhook : ∀ u, t ≠ .hookedT u)
    (htext : t ≠ .textualT) :
    readStringTo cfg canSet t old value = readStringSwitch cfg canSet t old value := by
  rw [readStringTo.eq_def, if_neg hnil]
  cases t
  all_goals first
    | exact absurd rfl (hptr _)
    | exact absurd rfl (hhook _)
    | exact absurd rfl htext
    | (show readStringCore cfg canSet _ old value = _
       rw [readStringCore.eq_def, if_neg hemp])

/-! ## Claim C6: decode leaf assignment around the sentinels -/

/-- C6: in decode's leaf assignment, a `NilValue` cell returns at once with
the field untouched (so an absent optional stays absent); for a pointer
field any other cell first binds a freshly instantiated zero pointee — in
particular an `EmptyValue` cell leaves exactly that fresh zero pointee —
and assignment continues inside the pointee. -/
theorem C6_leaf_assignment :
    (∀ (cfg : Codec) (canSet : Bool) (t : GoType) (old : GoValue),
      readStringTo cfg canSet t old cfg.NilValue = .val (old, none)) ∧
    (∀ (cfg : Codec) (e : GoType) (old : GoValue),
      cfg.EmptyValue ≠ cfg.NilValue →
      readStringTo cfg true (.ptrT e) old cfg.EmptyValue
        = .val (.ptrV (some (zeroOf e)), none)) ∧
    (∀ (cfg : Codec) (e : GoType) (old out : GoValue) (err : Option Err)
      (value : String),
      value ≠ cfg.NilValue →
      readStringTo cfg true (.ptrT e) old value = .val (out, err) →
      ∃ inner, out = .ptrV (some inner)) := by
  refine ⟨?_, ?_, ?_⟩
  · intro cfg canSet t old
    rw [readStringTo.eq_def, if_pos rfl]
  · intro cfg e old hne
    rw [readStringTo, if_neg hne, if_pos rfl, readStringCore.eq_def, if_pos rfl]
  · intro cfg e old out err value hne h
    rw [readStringTo, if_neg hne, if_pos rfl] at h
    rcases hc : readStringCore cfg true e (zeroOf e) value with ⟨inner, err'⟩ | m <;>
      rw [hc] at h
    · refine ⟨inner, ?_⟩
      injection h with h1
      exact ((Prod.mk.injEq _ _ _ _).mp h1).1.symm
    · exact Outcome.noConfusion h

/-- Witness for C6 at concrete inputs: an `int` field keeps its prior value
on a `NULL` cell; a `*int` field on an empty cell becomes a fresh zero
pointee; that same call also exhibits the freshly-bound-pointee shape. -/
theorem C6_leaf_assignment_witness :
    (readStringTo Codec.default true (.intT .iw0) (.intV 7) "NULL"
      = .val (.intV 7, none)) ∧
    (readStringTo Codec.default true (.ptrT (.intT .iw0)) (.ptrV none) ""
      = .val (.ptrV (some (zeroOf (.intT .iw0))), none)) ∧
    (∃ inner, GoValue.ptrV (some (zeroOf (.intT .iw0))) = .ptrV (some inner)) := by
  refine ⟨C6_leaf_assignment.1 Codec.default true _ _, ?_, ?_⟩
  · exact C6_leaf_assignment.2.1 Codec.default _ _ (by decide)
  · exact C6_leaf_assignment.2.2 Codec.default (.intT .iw0) (.ptrV none) _ none ""
      (by decide)
      (C6_leaf_assignment.2.1 Codec.default _ _ (by decide))

/-! ## Claim C8: decoding a sequence field is atomic on success -/

/-- A successful element loop yields exactly one element per comma-separated
part. -/
theorem readSliceElems_length (cfg : Codec) (e : GoType) :
    ∀ (parts : List String) (elems : List GoValue),
      readSliceElems cfg e parts = .val (.ok elems) → elems.length = parts.length := by
  intro parts
  induction parts with
  | nil =>
    intro elems h
    rw [readSliceElems] at h
    injection h with h1
    injection h1 with h2
    simp [← h2]
  | cons p ps ih =>
    intro elems h
    rw [readSliceElems] at h
    rcases h1 : readStringTo cfg true e (zeroOf e) p with ⟨v, err⟩ | m <;> rw [h1] at h
    · match err with
      | some err' => rw [show Outcome.val (v, some err') = Outcome.val (v, some err') from rfl] at h; simp at h
      | none =>
        rcases h2 : readSliceElems cfg e ps with ⟨res⟩ | m <;> rw [h2] at h
        · match res with
          | .ok vs =>
            injection h with h3
            injection h3 with h4
            rw [← h4, List.length_cons, List.length_cons, ih vs h2]
          | .error err' => simp at h
        · exact Outcome.noConfusion h
    · exact Outcome.noConfusion h

/-- C8: when a sequence-kind field's cell is not a sentinel, the cell is
split on commas; if every part parses, the field is replaced by the freshly
sized sequence (one element per part); if any part fails, the call errors
and the field keeps its prior value — no partial sequence is observable. -/
theorem C8_slice_atomic (cfg : Codec) (e : GoType) (old : List GoValue)
    (value : String) (hnil : value ≠ cfg.NilValue) (hemp : value ≠ cfg.EmptyValue) :
    (∀ out err, readStringTo cfg true (.sliceT e) (.sliceV old) value
        = .val (out, some err) → out = .sliceV old) ∧
    (∀ elems, readSliceElems cfg e (splitGo ',' value) = .val (.ok elems) →
      readStringTo cfg true (.sliceT e) (.sliceV old) value
          = .val (.sliceV elems, none) ∧
        elems.length = (splitGo ',' value).length) := by
  have hunfold : readStringTo cfg true (.sliceT e) (.sliceV old) value
      = readStringSwitch cfg true (.sliceT e) (.sliceV old) value :=
    readStringTo_plain cfg true _ _ value hnil hemp
      (fun _ h => GoType.noConfusion h) (fun _ h => GoType.noConfusion h)
      (fun h => GoType.noConfusion h)
  constructor
  · intro out err h
    rw [hunfold, readStringSwitch] at h
    rcases h1 : readSliceElems cfg e (splitGo ',' value) with ⟨res⟩ | m <;> rw [h1] at h
    · cases res with
      | error err' => simp only [Outcome.val.injEq, Prod.mk.injEq] at h; exact h.1.symm
      | ok elems => simp at h
    · exact Outcome.noConfusion h
  · intro elems h
    refine ⟨?_, readSliceElems_length cfg e _ _ h⟩
    rw [hunfold, readStringSwitch, h]
    rfl

/-- Witness for C8 at concrete inputs: decoding `"1,x,3"` into an `[]int`
field fails and keeps the prior slice; decoding `"1,2"` replaces it with
the two parsed elements. -/
theorem C8_slice_atomic_witness :
    (GoValue.sliceV [.intV 9] = .sliceV [.intV 9]) ∧
    (readStringTo Codec.default true (.sliceT (.intT .iw0)) (.sliceV [.intV 9]) "1,2"
        = .val (.sliceV [.intV 1, .intV 2], none) ∧
      ([GoValue.intV 1, .intV 2].length = (splitGo ',' "1,2").length)) := by
  have hone : readStringTo Codec.default true (.intT .iw0) (zeroOf (.intT .iw0)) "1"
      = .val (.intV 1, none) := by
    rw [readStringTo_plain Codec.default true _ _ "1" (by decide) (by decide)
        (fun _ h => GoType.noConfusion h) (fun _ h => GoType.noConfusion h)
        (fun h => GoType.noConfusion h),
      readStringSwitch, show parseIntGo "1" (IntW.iw0.bitSize) = .ok 1 from by decide]
    rfl
  have htwo : readStringTo Codec.default true (.intT .iw0) (zeroOf (.intT .iw0)) "2"
      = .val (.intV 2, none) := by
    rw [readStringTo_plain Codec.default true _ _ "2" (by decide) (by decide)
        (fun _ h => GoType.noConfusion h) (fun _ h => GoType.noConfusion h)
        (fun h => GoType.noConfusion h),
      readStringSwitch, show parseIntGo "2" (IntW.iw0.bitSize) = .ok 2 from by decide]
    rfl
  have hbad : readStringTo Codec.default true (.intT .iw0) (zeroOf (.intT .iw0)) "x"
      = .val (zeroOf (.intT .iw0), some (.numError "ParseInt" "x" false)) := by
    rw [readStringTo_plain Codec.default true _ _ "x" (by decide) (by decide)
        (fun _ h => GoType.noConfusion h) (fun _ h => GoType.noConfusion h)
        (fun h => GoType.noConfusion h),
      readStringSwitch, show parseIntGo "x" (IntW.iw0.bitSize)
        = .error (.numError "ParseInt" "x" false) from by decide]
  have hfail : readSliceElems Codec.default (.intT .iw0) (splitGo ',' "1,x,3")
      = .val (.error (.numError "ParseInt" "x" false)) := by
    rw [show splitGo ',' "1,x,3" = ["1", "x", "3"] from rfl,
      readSliceElems, hone, readSliceElems, hbad]
  have hok : readSliceElems Codec.default (.intT .iw0) (splitGo ',' "1,2")
      = .val (.ok [.intV 1, .intV 2]) := by
    rw [show splitGo ',' "1,2" = ["1", "2"] from rfl,
      readSliceElems, hone, readSliceElems, htwo, readSliceElems]
  constructor
  · exact (C8_slice_atomic Codec.default (.intT .iw0) [.intV 9] "1,x,3"
      (by decide) (by decide)).1 (.sliceV [.intV 9]) (.numError "ParseInt" "x" false)
      (by
        rw [readStringTo_plain Codec.default true _ _ "1,x,3" (by decide) (by decide)
            (fun _ h => GoType.noConfusion h) (fun _ h => GoType.noConfusion h)
            (fun h => GoType.noConfusion h),
          readStringSwitch, hfail])
  · exact (C8_slice_atomic Codec.default (.intT .iw0) [.intV 9] "1,2"
      (by decide) (by decide)).2 _ hok

/-! ## Claim C9: `CellValues.Set` panics when a path extends an earlier leaf -/

/-- Looking up the key just assigned returns the assigned cell. -/
theorem cvGet_cvUpdate (vs : List (String × Cell)) (k : String) (c : Cell) :
    cvGet (cvUpdate vs k c) k = some c := by
  induction vs with
  | nil => simp [cvUpdate, cvGet]
  | cons p rest ih =>
    obtain ⟨k', c'⟩ := p
    by_cases hk : k' = k
    · subst hk
      rw [cvUpdate, if_pos rfl, cvGet, if_pos rfl]
    · rw [cvUpdate, if_neg hk, cvGet, if_neg hk, ih]

/-- C9: `CellValues` insertion is only total when no inserted dotted path
strictly extends an earlier one: after a path was successfully inserted as a
leaf, inserting any strict extension of it hits the leaf string, whose
`.(*CellValues)` type assertion fails — an unrecovered panic; hence `Decode`
on a header like `a, a.b` panics while building the tree instead of failing
gracefully. -/
theorem C9_path_extension_panics :
    (∀ (segs : List String), segs ≠ [] →
      ∀ (ext : List String), ext ≠ [] →
      ∀ (vs vs' : List (String × Cell)) (v v' : String),
      cvSetSegs vs segs v = .val vs' →
      ∃ m, cvSetSegs vs' (segs ++ ext) v' = .panicked m) ∧
    (∃ m, decodeRow Codec.default ["a", "a.b"] ["x", "y"]
        (.structT []) (.structV []) = .panicked m) := by
  constructor
  · intro segs
    induction segs with
    | nil => intro h; exact absurd rfl h
    | cons k tail ih =>
      intro _ ext hext vs vs' v v' hset
      cases tail with
      | nil =>
        rw [cvSetSegs] at hset
        injection hset with h1
        obtain ⟨e, ext', rfl⟩ := List.exists_cons_of_ne_nil hext
        refine ⟨"interface conversion: interface is string, not *csvencoding.CellValues", ?_⟩
        simp only [List.cons_append, List.nil_append, cvSetSegs, ← h1, cvGet_cvUpdate]
      | cons k2 rest =>
        simp only [cvSetSegs] at hset
        rcases hget : cvGet vs k with _ | c
        · -- key absent: a fresh subtree is created and descended into
          simp only [hget] at hset
          rcases hrec : cvSetSegs [] (k2 :: rest) v with sub' | m
          · simp only [hrec, Outcome.val.injEq] at hset
            obtain ⟨m, hm⟩ := ih (by simp) ext hext [] sub' v v' hrec
            refine ⟨m, ?_⟩
            simp only [List.cons_append] at hm ⊢
            simp only [cvSetSegs, ← hset, cvGet_cvUpdate, hm]
          · rw [hrec] at hset
            exact Outcome.noConfusion hset
        · cases c with
          | leaf s =>
            -- existing leaf: the original insertion itself would have panicked
            rw [hget] at hset
            exact Outcome.noConfusion hset
          | node sub =>
            -- existing subtree: descend
            simp only [hget] at hset
            rcases hrec : cvSetSegs sub (k2 :: rest) v with sub' | m
            · simp only [hrec, Outcome.val.injEq] at hset
              obtain ⟨m, hm⟩ := ih (by simp) ext hext sub sub' v v' hrec
              refine ⟨m, ?_⟩
              simp only [List.cons_append] at hm ⊢
              simp only [cvSetSegs, ← hset, cvGet_cvUpdate, hm]
            · rw [hrec] at hset
              exact Outcome.noConfusion hset
  · exact ⟨"interface conversion: interface is string, not *csvencoding.CellValues", rfl⟩

/-- Witness for C9 at a concrete input: inserting `a` as a leaf succeeds,
and inserting `a.b` afterwards panics. -/
theorem C9_path_extension_panics_witness :
    ∃ m, cvSetSegs [("a", Cell.leaf "x")] (["a"] ++ ["b"]) "y" = .panicked m := by
  exact C9_path_extension_panics.1 ["a"] (by simp) ["b"] (by simp)
    [] [("a", Cell.leaf "x")] "x" "y" rfl

/-! ## Claim C10: shape of the top-level decode target -/

/-- `NumField` on a value of non-struct, non-named kind panics. -/
theorem readStructBody_nonstruct (cfg : Codec) (canSet : Bool) (t : GoType)
    (old : GoValue) (values : List (String × Cell))
    (hk : kindOf t ≠ .kStruct) (hh : ∀ u, t ≠ .hookedT u) :
    readStructBody cfg canSet t old values
      = .panicked ("reflect: NumField of " ++ typeName t ++ " value") := by
  rw [readStructBody.eq_def]
  cases t
  all_goals first
    | exact absurd rfl (hh _)
    | exact absurd rfl hk
    | (cases old <;> rfl)

/-- C10 counterexample: `Decode` on a struct passed by value whose header
matches no field returns without error and without panicking, refuting
"every call whose argument is not a pointer to a struct panics". -/
theorem C10_counterexample :
    decodeRow Codec.default ["zzz"] ["x"]
      (.structT [(⟨"Name", "", true, false⟩, .stringT)]) (.structV [.stringV ""])
      = .val (.structV [.stringV ""], none) := by
  show readStructTo Codec.default false
      (.structT [(⟨"Name", "", true, false⟩, .stringT)]) (.structV [.stringV ""])
      [("zzz", Cell.leaf "x")] = _
  simp [readStructTo, readStructBody, readFieldsTo, skipField, tagName, tagParts,
    splitGo, splitChar, cvGet,
    show (['z', 'z', 'z'].asString) = "zzz" from rfl,
    show (([] : List Char).asString) = "" from rfl,
    show toLowerGo "Name" = "name" from rfl]

/-- C10 (amended): decoding into a pointer to a non-struct, non-named
target always panics (`NumField` on a non-struct).  A struct passed by
value does not always panic — a call whose header matches no plain field
returns without error (see the counterexample) — but it panics as soon as
the decode touches an unaddressable field, and a completed assignment is
not required for that: a matching non-sentinel cell on a string field
panics at `SetString`; a matching cell other than `NilValue` — the
`EmptyValue` sentinel included — on a pointer field panics at the pointer
instantiation `Set` of `decode.go` lines 74-80, which precedes the
`EmptyValue` check; and an embedded non-struct field panics at `NumField`
even when no column matches anything. -/
theorem C10_target_shape_amended :
    (∀ (cfg : Codec) (t : GoType) (v : GoValue) (values : List (String × Cell)),
      kindOf t ≠ .kStruct → (∀ u, t ≠ .hookedT u) →
      ∃ m, readStructTo cfg false (.ptrT t) (.ptrV (some v)) values = .panicked m) ∧
    (∀ s : String, s ≠ DefaultNilValue → s ≠ DefaultEmptyValue →
      decodeRow Codec.default ["name"] [s]
        (.structT [(⟨"Name", "", true, false⟩, .stringT)]) (.structV [.stringV ""])
        = .panicked "reflect: reflect.Value.SetString using unaddressable value") ∧
    (∀ s : String, s ≠ DefaultNilValue →
      decodeRow Codec.default ["age"] [s]
        (.structT [(⟨"Age", "", true, false⟩, .ptrT (.intT .iw0))])
        (.structV [.ptrV none])
        = .panicked "reflect: reflect.Value.Set using unaddressable value") ∧
    (decodeRow Codec.default ["zzz"] ["x"]
        (.structT [(⟨"Emb", "", true, true⟩, .intT .iw0)]) (.structV [.intV 0])
        = .panicked "reflect: NumField of int value") := by
  refine ⟨?_, ?_, ?_, ?_⟩
  · intro cfg t v values hk hh
    refine ⟨"reflect: NumField of " ++ typeName t ++ " value", ?_⟩
    simp only [readStructTo, readStructBody_nonstruct cfg true t v values hk hh]
  · intro s hs1 hs2
    have h1 : ¬(s = "NULL") := hs1
    have h2 : ¬(s = "") := hs2
    show readStructTo Codec.default false
        (.structT [(⟨"Name", "", true, false⟩, .stringT)]) (.structV [.stringV ""])
        [("name", Cell.leaf s)] = _
    simp [readStructTo, readStructBody, readFieldsTo, skipField, tagName, tagParts,
      splitGo, splitChar, cvGet,
      readStringTo, readStringCore, readStringSwitch,
      Codec.default, DefaultNilValue, DefaultEmptyValue, h1, h2,
      show (([] : List Char).asString) = "" from rfl,
      show toLowerGo "Name" = "name" from rfl]
  · intro s hs1
    have h1 : ¬(s = "NULL") := hs1
    show readStructTo Codec.default false
        (.structT [(⟨"Age", "", true, false⟩, .ptrT (.intT .iw0))])
        (.structV [.ptrV none]) [("age", Cell.leaf s)] = _
    simp [readStructTo, readStructBody, readFieldsTo, skipField, tagName, tagParts,
      splitGo, splitChar, cvGet, readStringTo,
      Codec.default, DefaultNilValue, h1,
      show (([] : List Char).asString) = "" from rfl,
      show toLowerGo "Age" = "age" from rfl]
  · show readStructTo Codec.default false
        (.structT [(⟨"Emb", "", true, true⟩, .intT .iw0)]) (.structV [.intV 0])
        [("zzz", Cell.leaf "x")] = _
    simp [readStructTo, readStructBody, readFieldsTo, skipField, tagName, tagParts,
      splitGo, splitChar, typeName,
      show (([] : List Char).asString) = "" from rfl]

/-- Witness for C10 (amended) at concrete inputs: a `*int` target panics;
a by-value struct target with a matching non-sentinel cell panics at the
`SetString` call; and a by-value struct target whose pointer field matches
the `EmptyValue` cell `""` panics at the pointer-instantiation `Set`
despite the cell being a sentinel. -/
theorem C10_target_shape_amended_witness :
    (∃ m, readStructTo Codec.default false (.ptrT (.intT .iw0))
        (.ptrV (some (.intV 0))) [] = .panicked m) ∧
    (decodeRow Codec.default ["name"] ["x"]
        (.structT [(⟨"Name", "", true, false⟩, .stringT)]) (.structV [.stringV ""])
        = .panicked "reflect: reflect.Value.SetString using unaddressable value") ∧
    (decodeRow Codec.default ["age"] [""]
        (.structT [(⟨"Age", "", true, false⟩, .ptrT (.intT .iw0))])
        (.structV [.ptrV none])
        = .panicked "reflect: reflect.Value.Set using unaddressable value") := by
  refine ⟨?_, ?_, ?_⟩
  · exact C10_target_shape_amended.1 Codec.default (.intT .iw0) (.intV 0) []
      (by simp [kindOf]) (fun _ h => GoType.noConfusion h)
  · exact C10_target_shape_amended.2.1 "x" (by decide) (by decide)
  · exact C10_target_shape_amended.2.2.1 "" (by decide)

/-! ## Claim C2: sticky error state

`Decoder.Decode` has a pointer receiver and its sticky error works
(`decoderDecodeSticky` below).  `Encoder.Encode`, however, is declared on a
*value* receiver (`encode.go` line 198): the `enc.err = err` assignments of
lines 207 and 211 mutate a discarded copy, so a failure is returned to the
caller but never recorded on the instance — the next `Encode` call on the
very same encoder does full new work.  The claim (and the spec) say every
subsequent call returns the stored error; the code does that for the
decoder only. -/

/-- The decoder's sticky error does work: once `err` is set, every later
`Decode` call returns it at once, reading nothing. -/
theorem decoderDecodeSticky (d : DecoderState) (e : Err) (t : GoType)
    (v : GoValue) (h : d.err = some e) :
    decoderDecode d t v = .val ((v, some e), d) := by
  rw [decoderDecode, h]

/-- C2 (code bug, encoder half): a first `Encode` of an unsupported value
(`struct { U uint }`) fails, yet leaves the encoder exactly as constructed
(`err` still `nil`); a second `Encode` on that same instance then performs
a full new encode and write and returns `nil` instead of the stored error. -/
theorem C2_encoder_sticky_error_lost :
    (encoderEncode newEncoderState
        (.structT [(⟨"U", "", true, false⟩, .uintT)]) (.structV [.uintV 1])
      = (some (.wrapStructField "U" "1" (.cantMarshal "uint")), newEncoderState)) ∧
    (encoderEncode newEncoderState
        (.structT [(⟨"S", "", true, false⟩, .stringT)]) (.structV [.stringV "x"])
      = (none, { written := [["x"]], err := none, cfg := Codec.default })) := by
  have hbad : marshal Codec.default
      (.structT [(⟨"U", "", true, false⟩, .uintT)]) (.structV [.uintV 1]) false
      = .error (.wrapStructField "U" "1" (.cantMarshal "uint")) := by
    simp [marshal, marshalAfterPtr, marshalFields, skipField, tagName, tagParts,
      splitGo, splitChar, tagOmitEmpty,
      show (([] : List Char).asString) = "" from rfl,
      show display (.uintV 1) = "1" from by decide]
  have hgood : marshal Codec.default
      (.structT [(⟨"S", "", true, false⟩, .stringT)]) (.structV [.stringV "x"]) false
      = .ok ["x"] := by
    simp [marshal, marshalAfterPtr, marshalFields, skipField, tagName, tagParts,
      splitGo, splitChar, tagOmitEmpty, Except.map,
      show (([] : List Char).asString) = "" from rfl]
  constructor
  · simp [encoderEncode, newEncoderState, hbad]
  · simp [encoderEncode, newEncoderState, hgood]

/-! ## Claim C5: cell-getter/cell-setter hook precedence -/

/-- C5 counterexample: a map-kind named field with the cell-setter
capability (exactly the test suite's `csvgetter` type) whose `PathTree`
entry is a *subtree* (header `json.x`) does not use the hook: decoding
reaches `readCellValuesTo`, which never consults the hook, and fails with
the unsupported-type error, the hook state untouched. -/
theorem C5_counterexample :
    decodeRow Codec.default ["json.x"] ["y"]
      (.ptrT (.structT [(⟨"Json", "", true, false⟩, .hookedT (.mapT .stringT .stringT))]))
      (.ptrV (some (.structV [.hookedV [] (.mapV [])])))
      = .val (.ptrV (some (.structV [.hookedV [] (.mapV [])])),
          some (.cantUnmarshal "named map[string]string")) := by
  show readStructTo Codec.default false _ _ [("json", Cell.node [("x", Cell.leaf "y")])] = _
  simp [readStructTo, readStructBody, readFieldsTo, skipField, tagName, tagParts,
    splitGo, splitChar, cvGet, readCellValuesTo, kindOf, typeName,
    show (([] : List Char).asString) = "" from rfl,
    show toLowerGo "Json" = "json" from rfl,
    show (['j', 'o', 's', 'n'].asString) = "josn" from rfl,
    show (['j', 's', 'o', 'n'].asString) = "json" from rfl,
    show (['x'].asString) = "x" from rfl]

/-- C5 (amended): on encode the cell-getter wins over everything — a
`hookedT` value of any underlying kind (struct and map included) marshals
to its hook cells.  On decode the cell-setter is consulted only inside leaf
assignment, after the sentinel checks: a leaf cell different from both
sentinels uses the hook; a subtree entry goes through the structural
`readCellValuesTo`, which never consults the hook and rejects every
non-struct kind. -/
theorem C5_hook_precedence_amended :
    (∀ (cfg : Codec) (u : GoType) (cells : List String) (inner : GoValue)
      (oe : Bool),
      marshal cfg (.hookedT u) (.hookedV cells inner) oe = .ok cells) ∧
    (∀ (cfg : Codec) (u : GoType) (cells : List String) (inner : GoValue)
      (value : String),
      value ≠ cfg.NilValue → value ≠ cfg.EmptyValue →
      readStringTo cfg true (.hookedT u) (.hookedV cells inner) value
        = .val (.hookedV [value] inner, none)) ∧
    (∀ (cfg : Codec) (canSet : Bool) (u : GoType) (old : GoValue)
      (sub : List (String × Cell)),
      kindOf u ≠ .kStruct →
      readCellValuesTo cfg canSet (.hookedT u) old sub
        = .val (old, some (.cantUnmarshal (typeName (.hookedT u))))) := by
  refine ⟨?_, ?_, ?_⟩
  · intro cfg u cells inner oe
    rw [marshal]
  · intro cfg u cells inner value h1 h2
    rw [readStringTo.eq_def, if_neg h1]
    show readStringCore cfg true (.hookedT u) (.hookedV cells inner) value = _
    rw [readStringCore, if_neg h2, if_pos rfl]
  · intro cfg canSet u old sub hk
    rw [readCellValuesTo.eq_def]
    show (if kindOf (.hookedT u) = Kind.kStruct then _ else _) = _
    rw [if_neg (by simpa [kindOf] using hk)]

/-- Witness for C5 (amended) at concrete inputs: encoding the test's
map-kind `csvgetter` uses `GetCSV`; decoding a leaf cell into it uses
`SetCSV`; a subtree entry for it yields the unsupported-type error. -/
theorem C5_hook_precedence_amended_witness :
    (marshal Codec.default (.hookedT (.mapT .stringT .stringT))
        (.hookedV ["getcsv"] (.mapV [(.stringV "name", .stringV "henry")])) false
      = .ok ["getcsv"]) ∧
    (readStringTo Codec.default true (.hookedT (.mapT .stringT .stringT))
        (.hookedV [] (.mapV [])) "hello world"
      = .val (.hookedV ["hello world"] (.mapV []), none)) ∧
    (readCellValuesTo Codec.default false (.hookedT (.mapT .stringT .stringT))
        (.hookedV [] (.mapV [])) [("x", Cell.leaf "y")]
      = .val (.hookedV [] (.mapV []),
          some (.cantUnmarshal (typeName (.hookedT (.mapT .stringT .stringT)))))) := by
  refine ⟨C5_hook_precedence_amended.1 Codec.default _ _ _ false, ?_, ?_⟩
  · exact C5_hook_precedence_amended.2.1 Codec.default _ _ _ "hello world"
      (by decide) (by decide)
  · exact C5_hook_precedence_amended.2.2 Codec.default false _ _ _
      (by simp [kindOf])

/-! ## Claim C1: nil-pointer-to-record cell expansion -/

/-- When every field is exported, the nil expansion is one `NilValue` per
field. -/
theorem nilCells_exported (cfg : Codec) :
    ∀ fs : List (FieldMeta × GoType), (∀ p ∈ fs, p.1.exported = true) →
      nilCells cfg fs = List.replicate fs.length cfg.NilValue := by
  intro fs
  induction fs with
  | nil => intro _; rfl
  | cons p rest ih =>
    intro h
    obtain ⟨m, t⟩ := p
    rw [nilCells, if_pos (h (m, t) (List.mem_cons_self _ _)), List.length_cons,
      List.replicate_succ, ih (fun q hq => h q (List.mem_cons_of_mem _ hq))]

/-- Both branches of an encode-or-sentinel alternative are a single cell. -/
theorem ite_ok_single (X : Prop) [Decidable X] (c₁ c₂ : String) :
    ∃ c, (if X then Except.ok (ε := Err) [c₁] else Except.ok [c₂]) = .ok [c] := by
  by_cases h : X
  · exact ⟨c₁, if_pos h⟩
  · exact ⟨c₂, if_neg h⟩

/-- A scalar-kind field always marshals to exactly one cell (the real
representation, or `EmptyValue` when omit-empty applies). -/
theorem marshal_scalar_single (cfg : Codec) (t : GoType) (v : GoValue)
    (oe : Bool) (h : scalarCell t v = true) :
    ∃ c, marshal cfg t v oe = .ok [c] := by
  cases t <;> cases v <;> simp [scalarCell] at h <;>
    · simp only [marshal, marshalAfterPtr]
      exact ite_ok_single _ _ _

/-- The struct-field loop over exported, unskipped, scalar fields
succeeds with exactly one cell per field. -/
theorem marshalFields_single (cfg : Codec) :
    ∀ (fs : List (FieldMeta × GoType)) (vs : List GoValue),
      fs.length = vs.length →
      (∀ p ∈ fs, p.1.exported = true ∧ tagName p.1.tag ≠ "-") →
      (∀ q ∈ fs.zip vs, scalarCell q.1.2 q.2 = true) →
      ∃ cells, marshalFields cfg fs vs = .ok cells ∧ cells.length = fs.length := by
  intro fs
  induction fs with
  | nil => intro vs _ _ _; exact ⟨[], by rw [marshalFields], rfl⟩
  | cons p rest ih =>
    intro vs hlen hmeta hsc
    obtain ⟨m, ft⟩ := p
    cases vs with
    | nil => simp at hlen
    | cons x xs =>
      have hm := hmeta (m, ft) (List.mem_cons_self _ _)
      have hskip : skipField m = false := by
        unfold skipField
        rw [hm.1]
        simp [hm.2]
      obtain ⟨c, hc⟩ := marshal_scalar_single cfg ft x (tagOmitEmpty m.tag)
        (hsc ((m, ft), x) (by simp [List.zip_cons_cons]))
      obtain ⟨cells, hcells, hlen'⟩ := ih xs (by simpa using hlen)
        (fun q hq => hmeta q (List.mem_cons_of_mem _ hq))
        (fun q hq => hsc q (by simp [List.zip_cons_cons, hq]))
      refine ⟨[c] ++ cells, ?_, by simp [hlen']⟩
      rw [marshalFields, if_neg (by simp [hskip]), hc, hcells]
      rfl

/-- C1 counterexample: for a pointee type with an exported field tagged
`csv:"-"`, the nil expansion emits a `NilValue` cell for it (two cells in
total) while a populated instance of the same record type skips it (one
cell) — the flattened counts differ, contradicting the claim. -/
theorem C1_counterexample :
    (marshal Codec.default
        (.ptrT (.structT [(⟨"Skipped", "-", true, false⟩, .stringT),
          (⟨"Name", "", true, false⟩, .stringT)]))
        (.ptrV none) false
      = .ok ["NULL", "NULL"]) ∧
    (marshal Codec.default
        (.structT [(⟨"Skipped", "-", true, false⟩, .stringT),
          (⟨"Name", "", true, false⟩, .stringT)])
        (.structV [.stringV "a", .stringV "b"]) false
      = .ok ["b"]) := by
  constructor
  · simp [marshal, nilCells, Codec.default, DefaultNilValue]
  · simp [marshal, marshalAfterPtr, marshalFields, skipField, tagName, tagParts,
      splitGo, splitChar, tagOmitEmpty, Except.map,
      show (['-'].asString) = "-" from rfl,
      show (([] : List Char).asString) = "" from rfl]

/-- C1 (amended): the nil expansion emits one `NilValue` cell per
*exported* field of the pointee's declared fields — the `csv:"-"` tag is
not honoured and nested record types are not expanded — so the flattened
count matches a populated instance exactly when every field is exported,
not tag-skipped, and single-cell (scalar). -/
theorem C1_nil_expansion_amended (cfg : Codec) (fs : List (FieldMeta × GoType))
    (vs : List GoValue) (hlen : fs.length = vs.length)
    (hmeta : ∀ p ∈ fs, p.1.exported = true ∧ tagName p.1.tag ≠ "-")
    (hsc : ∀ q ∈ fs.zip vs, scalarCell q.1.2 q.2 = true) :
    marshal cfg (.ptrT (.structT fs)) (.ptrV none) false
        = .ok (List.replicate fs.length cfg.NilValue) ∧
    ∃ cells, marshal cfg (.structT fs) (.structV vs) false = .ok cells ∧
      cells.length = fs.length := by
  constructor
  · rw [show marshal cfg (.ptrT (.structT fs)) (.ptrV none) false
        = .ok (nilCells cfg fs) from by simp [marshal]]
    rw [nilCells_exported cfg fs (fun p hp => (hmeta p hp).1)]
  · have h2 : marshal cfg (.structT fs) (.structV vs) false
        = marshalFields cfg fs vs := by
      simp [marshal, marshalAfterPtr]
    obtain ⟨cells, hc, hl⟩ := marshalFields_single cfg fs vs hlen hmeta hsc
    exact ⟨cells, h2 ▸ hc, hl⟩

/-- Witness for C1 (amended) at the spec's `{A, B}` shape: the nil pointer
expands to exactly two `NilValue` cells and a populated instance also
yields two cells. -/
theorem C1_nil_expansion_amended_witness :
    marshal Codec.default
        (.ptrT (.structT [(⟨"A", "", true, false⟩, .stringT),
          (⟨"B", "", true, false⟩, .stringT)]))
        (.ptrV none) false
      = .ok (List.replicate 2 Codec.default.NilValue) ∧
    ∃ cells, marshal Codec.default
        (.structT [(⟨"A", "", true, false⟩, .stringT),
          (⟨"B", "", true, false⟩, .stringT)])
        (.structV [.stringV "x", .stringV "y"]) false = .ok cells ∧
      cells.length = 2 := by
  exact C1_nil_expansion_amended Codec.default
    [(⟨"A", "", true, false⟩, .stringT), (⟨"B", "", true, false⟩, .stringT)]
    [.stringV "x", .stringV "y"] rfl (by decide) (by decide)

/-! ## Claim C3: scalar round trip under the default sentinels -/

/-- A formatted integer never collides with the default nil sentinel. -/
theorem formatInt_ne_NULL (i : Int) : formatInt i ≠ "NULL" := by
  intro h
  have hl := congrArg String.toList h
  rw [show ("NULL" : String).toList = ['N', 'U', 'L', 'L'] from rfl] at hl
  rcases le_or_lt 0 i with hpos | hneg
  · have hform : (formatInt i).toList = natDecChars i.natAbs := by
      unfold formatInt
      rw [if_neg (by omega)]
      rfl
    rw [hform] at hl
    by_cases h0 : i.natAbs = 0
    · rw [h0] at hl
      exact absurd hl (by decide)
    · obtain ⟨c, cs, hc, hlo, hhi⟩ := natDecChars_of_ne_zero h0
      rw [hc] at hl
      injection hl with h1 _
      rw [h1] at hhi
      exact absurd hhi (by decide)
  · have hform : (formatInt i).toList = '-' :: natDecChars i.natAbs := by
      unfold formatInt
      rw [if_pos hneg]
      rfl
    rw [hform] at hl
    injection hl with h1 _
    exact absurd h1 (by decide)

/-- A formatted integer is never the empty string. -/
theorem formatInt_ne_empty (i : Int) : formatInt i ≠ "" := by
  intro h
  have hl := congrArg String.toList h
  rw [show ("" : String).toList = [] from rfl] at hl
  rcases le_or_lt 0 i with hpos | hneg
  · have hform : (formatInt i).toList = natDecChars i.natAbs := by
      unfold formatInt
      rw [if_neg (by omega)]
      rfl
    rw [hform] at hl
    by_cases h0 : i.natAbs = 0
    · rw [h0] at hl
      exact absurd hl (by decide)
    · obtain ⟨c, cs, hc, -, -⟩ := natDecChars_of_ne_zero h0
      rw [hc] at hl
      exact List.cons_ne_nil _ _ hl
  · have hform : (formatInt i).toList = '-' :: natDecChars i.natAbs := by
      unfold formatInt
      rw [if_pos hneg]
      rfl
    rw [hform] at hl
    exact List.cons_ne_nil _ _ hl

/-- C3 counterexample: the string `"NULL"` encodes verbatim to the cell
`"NULL"`, which decode treats as the nil sentinel and leaves the target at
its zero value `""` — so `decode(encode("NULL")) ≠ "NULL"` and the claim
fails for string values equal to the `NilValue` sentinel. -/
theorem C3_counterexample :
    scalarRoundTrip .stringT (.stringV "NULL")
        = some (.val (.stringV "", none)) ∧
    GoValue.stringV "" ≠ .stringV "NULL" := by
  constructor
  · have h1 : marshal Codec.default .stringT (.stringV "NULL") false
        = .ok ["NULL"] := by
      simp [marshal, marshalAfterPtr]
    rw [scalarRoundTrip, h1]
    show some (readStringTo Codec.default true .stringT (zeroOf .stringT) "NULL") = _
    rw [readStringTo.eq_def,
      if_pos (show "NULL" = Codec.default.NilValue from rfl)]
    simp [zeroOf]
  · intro h
    injection h with h1
    exact absurd h1 (by decide)

/-- C3 (amended): `decode(encode(x)) = x` holds under the default sentinels
for booleans, every integer width (for values within the width's signed
range, the only values the width holds), and strings other than the
`NilValue` sentinel `"NULL"`.  Floating-point widths are outside the
embedding (IEEE-754 shortest-representation formatting), and the string
clause needs its proviso because the cell produced for `"NULL"` is read
back as the nil sentinel (see the counterexample). -/
theorem C3_scalar_round_trip_amended :
    (∀ b : Bool, scalarRoundTrip .boolT (.boolV b)
      = some (.val (.boolV b, none))) ∧
    (∀ (w : IntW) (i : Int),
      -((2 ^ (w.bits - 1) : Nat) : Int) ≤ i →
      i < ((2 ^ (w.bits - 1) : Nat) : Int) →
      scalarRoundTrip (.intT w) (.intV i)
        = some (.val (.intV i, none))) ∧
    (∀ s : String, s ≠ DefaultNilValue →
      scalarRoundTrip .stringT (.stringV s)
        = some (.val (.stringV s, none))) := by
  refine ⟨?_, ?_, ?_⟩
  · intro b
    have h1 : marshal Codec.default .boolT (.boolV b) false
        = .ok [formatBool b] := by
      simp [marshal, marshalAfterPtr]
    rw [scalarRoundTrip, h1]
    show some (readStringTo Codec.default true .boolT (zeroOf .boolT) (formatBool b)) = _
    rw [readStringTo_plain Codec.default true .boolT (zeroOf .boolT) (formatBool b)
      (by cases b <;> decide) (by cases b <;> decide)
      (fun _ h => GoType.noConfusion h) (fun _ h => GoType.noConfusion h)
      (fun h => GoType.noConfusion h)]
    rw [readStringSwitch, parseBool_formatBool b]
    rfl
  · intro w i h1 h2
    have hm : marshal Codec.default (.intT w) (.intV i) false
        = .ok [formatInt i] := by
      simp [marshal, marshalAfterPtr]
    rw [scalarRoundTrip, hm]
    show some (readStringTo Codec.default true (.intT w) (zeroOf (.intT w)) (formatInt i)) = _
    rw [readStringTo_plain Codec.default true (.intT w) (zeroOf (.intT w))
      (formatInt i) (formatInt_ne_NULL i) (formatInt_ne_empty i)
      (fun _ h => GoType.noConfusion h) (fun _ h => GoType.noConfusion h)
      (fun h => GoType.noConfusion h)]
    rw [readStringSwitch, parseIntGo_formatInt w i h1 h2]
    rfl
  · intro s hs
    have hm : marshal Codec.default .stringT (.stringV s) false = .ok [s] := by
      simp [marshal, marshalAfterPtr]
    rw [scalarRoundTrip, hm]
    by_cases h0 : s = ""
    · subst h0
      show some (readStringTo Codec.default true .stringT (zeroOf .stringT) "") = _
      rw [readStringTo.eq_def, if_neg (by decide)]
      show some (readStringCore Codec.default true .stringT (zeroOf .stringT) "") = _
      rw [readStringCore.eq_def,
        if_pos (show "" = Codec.default.EmptyValue from rfl)]
      simp [zeroOf]
    · show some (readStringTo Codec.default true .stringT (zeroOf .stringT) s) = _
      rw [readStringTo_plain Codec.default true .stringT (zeroOf .stringT) s
        hs h0
        (fun _ h => GoType.noConfusion h) (fun _ h => GoType.noConfusion h)
        (fun h => GoType.noConfusion h)]
      rw [readStringSwitch]
      rfl

/-- Witness for C3 (amended) at concrete inputs: `true`, `-5 : int8`, and
the string `"hi"` all round-trip. -/
theorem C3_scalar_round_trip_amended_witness :
    scalarRoundTrip .boolT (.boolV true) = some (.val (.boolV true, none)) ∧
    scalarRoundTrip (.intT .iw8) (.intV (-5))
      = some (.val (.intV (-5), none)) ∧
    scalarRoundTrip .stringT (.stringV "hi")
      = some (.val (.stringV "hi", none)) :=
  ⟨C3_scalar_round_trip_amended.1 true,
   C3_scalar_round_trip_amended.2.1 .iw8 (-5) (by decide) (by decide),
   C3_scalar_round_trip_amended.2.2 "hi" (by decide)⟩

/-! ## Claim C4: error wrapping along the recursion -/

/-- Every error out of the encoder's slice loop is wrapped. -/
theorem marshalSlice_wrapped (cfg : Codec) (e : GoType) :
    ∀ (xs : List GoValue) (err : Err),
      marshalSlice cfg e xs = .error err → err.isWrapped = true := by
  intro xs
  induction xs with
  | nil =>
    intro err h
    rw [marshalSlice] at h
    exact Except.noConfusion h
  | cons x rest ih =>
    intro err h
    rw [marshalSlice] at h
    rcases hm : marshal cfg e x false with err' | cells <;> rw [hm] at h
    · injection h with h1
      rw [← h1]
      rfl
    · rcases hr : marshalSlice cfg e rest with err2 | cells2 <;> rw [hr] at h
      · simp [Except.map] at h
        exact h ▸ ih err2 hr
      · simp [Except.map] at h

/-- Every error out of the encoder's map loop is wrapped. -/
theorem marshalMap_wrapped (cfg : Codec) (kt vt : GoType) :
    ∀ (es : List (GoValue × GoValue)) (err : Err),
      marshalMap cfg kt vt es = .error err → err.isWrapped = true := by
  intro es
  induction es with
  | nil =>
    intro err h
    rw [marshalMap] at h
    exact Except.noConfusion h
  | cons p rest ih =>
    intro err h
    obtain ⟨k, v⟩ := p
    rw [marshalMap] at h
    rcases hk : marshal cfg kt k false with err' | kc <;> rw [hk] at h
    · injection h with h1
      rw [← h1]
      rfl
    · rcases hv : marshal cfg vt v false with err' | vc <;> rw [hv] at h
      · injection h with h1
        rw [← h1]
        rfl
      · rcases hr : marshalMap cfg kt vt rest with err2 | cells2 <;> rw [hr] at h
        · simp [Except.map] at h
          exact h ▸ ih err2 hr
        · simp [Except.map] at h

/-- Every error out of the encoder's struct-field loop over a
length-matching value is wrapped. -/
theorem marshalFields_wrapped (cfg : Codec) :
    ∀ (fs : List (FieldMeta × GoType)) (vs : List GoValue) (err : Err),
      fs.length = vs.length →
      marshalFields cfg fs vs = .error err → err.isWrapped = true := by
  intro fs
  induction fs with
  | nil =>
    intro vs err _ h
    rw [marshalFields] at h
    exact Except.noConfusion h
  | cons p rest ih =>
    intro vs err hlen h
    obtain ⟨m, ft⟩ := p
    cases vs with
    | nil => simp at hlen
    | cons x xs =>
      rw [marshalFields] at h
      by_cases hs : skipField m = true
      · rw [if_pos hs] at h
        exact ih xs err (by simpa using hlen) h
      · rw [if_neg hs] at h
        rcases hm : marshal cfg ft x (tagOmitEmpty m.tag) with err' | cells <;>
          rw [hm] at h
        · injection h with h1
          rw [← h1]
          rfl
        · rcases hr : marshalFields cfg rest xs with err2 | cells2 <;> rw [hr] at h
          · simp [Except.map] at h
            exact h ▸ ih xs err2 (by simpa using hlen) hr
          · simp [Except.map] at h

/-- Every error out of the signed range check is a bare `NumError`. -/
theorem intRangeCheck_error_unwrapped (s : String) (bits : Nat) (neg : Bool)
    (n : Nat) (e : Err) (h : intRangeCheck s bits neg n = .error e) :
    e.isWrapped = false := by
  unfold intRangeCheck at h
  split at h <;> split at h <;>
    first
      | (injection h with h1; rw [← h1]; rfl)
      | exact Except.noConfusion h

/-- Every error out of the `strconv.ParseInt` model is a bare `NumError`. -/
theorem parseIntGo_error_unwrapped (s : String) (b : Nat) (e : Err)
    (h : parseIntGo s b = .error e) : e.isWrapped = false := by
  simp only [parseIntGo] at h
  split at h
  · injection h with h1
    rw [← h1]
    rfl
  · cases hb : parseBody (signSplit s.toList).2 with
    | none =>
      rw [hb] at h
      injection h with h1
      rw [← h1]
      rfl
    | some m =>
      rw [hb] at h
      exact intRangeCheck_error_unwrapped s _ _ m e h

/-- Every error out of the `strconv.ParseBool` model is a bare `NumError`. -/
theorem parseBool_error_unwrapped (s : String) (e : Err)
    (h : parseBool s = .error e) : e.isWrapped = false := by
  unfold parseBool at h
  split at h
  · exact Except.noConfusion h
  · split at h
    · exact Except.noConfusion h
    · injection h with h1
      rw [← h1]
      rfl

/-- No function of the decoder's leaf-assignment group ever wraps an error:
whatever error comes out of `readStringTo`, `readStringCore`,
`readStringSwitch` or `readSliceElems` is a bare leaf error, proved
simultaneously by strong induction on the size of the field type. -/
theorem readString_group_unwrapped :
    ∀ (n : Nat) (t : GoType), sizeOf t ≤ n →
      (∀ (cfg : Codec) (canSet : Bool) (old out : GoValue) (value : String)
        (err : Err), readStringSwitch cfg canSet t old value = .val (out, some err) →
        err.isWrapped = false) ∧
      (∀ (cfg : Codec) (canSet : Bool) (old out : GoValue) (value : String)
        (err : Err), readStringCore cfg canSet t old value = .val (out, some err) →
        err.isWrapped = false) ∧
      (∀ (cfg : Codec) (canSet : Bool) (old out : GoValue) (value : String)
        (err : Err), readStringTo cfg canSet t old value = .val (out, some err) →
        err.isWrapped = false) ∧
      (∀ (cfg : Codec) (parts : List String) (err : Err),
        readSliceElems cfg t parts = .val (.error err) → err.isWrapped = false) := by
  intro n
  induction n with
  | zero =>
    intro t ht
    exfalso
    cases t <;> simp_arith at ht
  | succ n ih =>
    intro t ht
    have hswitch : ∀ (cfg : Codec) (canSet : Bool) (old out : GoValue)
        (value : String) (err : Err),
        readStringSwitch cfg canSet t old value = .val (out, some err) →
        err.isWrapped = false := by
      intro cfg canSet old out value err h
      rw [readStringSwitch.eq_def] at h
      split at h
      · cases canSet <;> simp at h
      · split at h
        · rename_i x0 e2 hp
          injection h with h1
          obtain ⟨-, h3⟩ := (Prod.mk.injEq _ _ _ _).mp h1
          injection h3 with h4
          exact h4 ▸ parseIntGo_error_unwrapped value _ e2 hp
        · cases canSet <;> simp at h
      · split at h
        · rename_i e2 hp
          injection h with h1
          obtain ⟨-, h3⟩ := (Prod.mk.injEq _ _ _ _).mp h1
          injection h3 with h4
          exact h4 ▸ parseBool_error_unwrapped value e2 hp
        · cases canSet <;> simp at h
      · split at h
        · exact Outcome.noConfusion h
        · rename_i e x0 e2 hr
          injection h with h1
          obtain ⟨-, h3⟩ := (Prod.mk.injEq _ _ _ _).mp h1
          injection h3 with h4
          have he : sizeOf e ≤ n := by simp_arith at ht; omega
          exact h4 ▸ (ih e he).2.2.2 cfg (splitGo ',' value) e2 hr
        · cases canSet <;> simp at h
      · injection h with h1
        obtain ⟨-, h3⟩ := (Prod.mk.injEq _ _ _ _).mp h1
        injection h3 with h4
        rw [← h4]
        rfl
    have hcore : ∀ (cfg : Codec) (canSet : Bool) (old out : GoValue)
        (value : String) (err : Err),
        readStringCore cfg canSet t old value = .val (out, some err) →
        err.isWrapped = false := by
      intro cfg canSet old out value err h
      rw [readStringCore.eq_def] at h
      by_cases hv : value = cfg.EmptyValue
      · rw [if_pos hv] at h
        injection h with h1
        obtain ⟨-, h3⟩ := (Prod.mk.injEq _ _ _ _).mp h1
        exact Option.noConfusion h3
      · rw [if_neg hv] at h
        split at h
        · rename_i u c0 inner
          cases canSet with
          | true => simp at h
          | false =>
            rw [if_neg Bool.false_ne_true] at h
            split at h
            · rename_i inner2 err2 hs
              injection h with h1
              obtain ⟨-, h3⟩ := (Prod.mk.injEq _ _ _ _).mp h1
              have hu : sizeOf u ≤ n := by simp_arith at ht; omega
              exact (ih u hu).1 cfg false inner inner2 value err (h3 ▸ hs)
            · exact Outcome.noConfusion h
        · cases canSet with
          | true => simp at h
          | false =>
            rw [if_neg Bool.false_ne_true] at h
            injection h with h1
            obtain ⟨-, h3⟩ := (Prod.mk.injEq _ _ _ _).mp h1
            injection h3 with h4
            rw [← h4]
            rfl
        · exact hswitch cfg canSet old out value err h
    have hread : ∀ (cfg : Codec) (canSet : Bool) (old out : GoValue)
        (value : String) (err : Err),
        readStringTo cfg canSet t old value = .val (out, some err) →
        err.isWrapped = false := by
      intro cfg canSet old out value err h
      rw [readStringTo.eq_def] at h
      by_cases hv : value = cfg.NilValue
      · rw [if_pos hv] at h
        injection h with h1
        obtain ⟨-, h3⟩ := (Prod.mk.injEq _ _ _ _).mp h1
        exact Option.noConfusion h3
      · rw [if_neg hv] at h
        split at h
        · rename_i e
          cases canSet with
          | false =>
            rw [if_neg Bool.false_ne_true] at h
            exact Outcome.noConfusion h
          | true =>
            rw [if_pos rfl] at h
            split at h
            · rename_i inner err2 hc
              injection h with h1
              obtain ⟨-, h3⟩ := (Prod.mk.injEq _ _ _ _).mp h1
              have he : sizeOf e ≤ n := by simp_arith at ht; omega
              exact (ih e he).2.1 cfg true (zeroOf e) inner value err (h3 ▸ hc)
            · exact Outcome.noConfusion h
        · exact hcore cfg canSet old out value err h
    have hslice : ∀ (cfg : Codec) (parts : List String) (err : Err),
        readSliceElems cfg t parts = .val (.error err) → err.isWrapped = false := by
      intro cfg parts
      induction parts with
      | nil =>
        intro err h
        rw [readSliceElems] at h
        injection h with h1
        exact Except.noConfusion h1
      | cons p ps ihp =>
        intro err h
        rw [readSliceElems] at h
        rcases h1 : readStringTo cfg true t (zeroOf t) p with ⟨v, e2⟩ | m <;>
          rw [h1] at h
        · cases e2 with
          | some e3 =>
            injection h with h2
            injection h2 with h3
            exact h3 ▸ hread cfg true (zeroOf t) v p e3 h1
          | none =>
            rcases h4 : readSliceElems cfg t ps with res | m <;> rw [h4] at h
            · cases res with
              | ok vs =>
                injection h with h5
                exact Except.noConfusion h5
              | error e3 =>
                injection h with h5
                injection h5 with h6
                exact h6 ▸ ihp e3 h4
            · exact Outcome.noConfusion h
        · exact Outcome.noConfusion h
    exact ⟨hswitch, hcore, hread, hslice⟩

/-- No function of the decoder's structural group ever wraps an error
either: `readStructBody`, `readStructTo`, `readCellValuesTo` and the field
loop `readFieldsTo` all hand any child failure back unchanged, proved
simultaneously by strong induction on the size of the target type (the
field loop measured by its field list). -/
theorem readStruct_group_unwrapped :
    ∀ (n : Nat),
      (∀ (t : GoType), sizeOf t ≤ n →
        (∀ (cfg : Codec) (canSet : Bool) (old out : GoValue)
          (values : List (String × Cell)) (err : Err),
          readStructBody cfg canSet t old values = .val (out, some err) →
          err.isWrapped = false) ∧
        (∀ (cfg : Codec) (canSet : Bool) (old out : GoValue)
          (values : List (String × Cell)) (err : Err),
          readStructTo cfg canSet t old values = .val (out, some err) →
          err.isWrapped = false) ∧
        (∀ (cfg : Codec) (canSet : Bool) (old out : GoValue)
          (values : List (String × Cell)) (err : Err),
          readCellValuesTo cfg canSet t old values = .val (out, some err) →
          err.isWrapped = false)) ∧
      (∀ (fs : List (FieldMeta × GoType)), sizeOf fs ≤ n →
        ∀ (cfg : Codec) (canSet : Bool) (vals out : List GoValue)
          (values : List (String × Cell)) (err : Err),
          readFieldsTo cfg canSet fs vals values = .val (out, some err) →
          err.isWrapped = false) := by
  intro n
  induction n with
  | zero =>
    constructor
    · intro t ht
      exfalso
      cases t <;> simp_arith at ht
    · intro fs hfs
      exfalso
      cases fs <;> simp_arith at hfs
  | succ n ih =>
    obtain ⟨ihT, ihF⟩ := ih
    constructor
    · intro t ht
      have hbody : ∀ (cfg : Codec) (canSet : Bool) (old out : GoValue)
          (values : List (String × Cell)) (err : Err),
          readStructBody cfg canSet t old values = .val (out, some err) →
          err.isWrapped = false := by
        intro cfg canSet old out values err h
        rw [readStructBody.eq_def] at h
        split at h
        · rename_i u cs inner
          split at h
          · rename_i inner2 err2 hs
            injection h with h1
            obtain ⟨-, h3⟩ := (Prod.mk.injEq _ _ _ _).mp h1
            have hu : sizeOf u ≤ n := by simp_arith at ht; omega
            exact (ihT u hu).1 cfg canSet inner inner2 values err (h3 ▸ hs)
          · exact Outcome.noConfusion h
        · rename_i fs vs
          split at h
          · rename_i vs2 err2 hr
            injection h with h1
            obtain ⟨-, h3⟩ := (Prod.mk.injEq _ _ _ _).mp h1
            have hf : sizeOf fs ≤ n := by simp_arith at ht; omega
            exact ihF fs hf cfg canSet vs vs2 values err (h3 ▸ hr)
          · exact Outcome.noConfusion h
        · injection h with h1
          obtain ⟨-, h3⟩ := (Prod.mk.injEq _ _ _ _).mp h1
          injection h3 with h4
          rw [← h4]
          rfl
        · injection h with h1
          obtain ⟨-, h3⟩ := (Prod.mk.injEq _ _ _ _).mp h1
          injection h3 with h4
          rw [← h4]
          rfl
        · exact Outcome.noConfusion h
      have hstruct : ∀ (cfg : Codec) (canSet : Bool) (old out : GoValue)
          (values : List (String × Cell)) (err : Err),
          readStructTo cfg canSet t old values = .val (out, some err) →
          err.isWrapped = false := by
        intro cfg canSet old out values err h
        rw [readStructTo.eq_def] at h
        split at h
        · rename_i e inner
          split at h
          · rename_i inner2 err2 hs
            injection h with h1
            obtain ⟨-, h3⟩ := (Prod.mk.injEq _ _ _ _).mp h1
            have he : sizeOf e ≤ n := by simp_arith at ht; omega
            exact (ihT e he).1 cfg true inner inner2 values err (h3 ▸ hs)
          · exact Outcome.noConfusion h
        · exact Outcome.noConfusion h
        · injection h with h1
          obtain ⟨-, h3⟩ := (Prod.mk.injEq _ _ _ _).mp h1
          injection h3 with h4
          rw [← h4]
          rfl
        · exact hbody cfg canSet old out values err h
      have hcells : ∀ (cfg : Codec) (canSet : Bool) (old out : GoValue)
          (values : List (String × Cell)) (err : Err),
          readCellValuesTo cfg canSet t old values = .val (out, some err) →
          err.isWrapped = false := by
        intro cfg canSet old out values err h
        rw [readCellValuesTo.eq_def] at h
        split at h
        · rename_i e
          cases canSet with
          | false =>
            rw [if_neg Bool.false_ne_true] at h
            exact Outcome.noConfusion h
          | true =>
            rw [if_pos rfl] at h
            by_cases hk : kindOf e = Kind.kStruct
            · rw [if_pos hk] at h
              split at h
              · rename_i inner2 err2 hs
                injection h with h1
                obtain ⟨-, h3⟩ := (Prod.mk.injEq _ _ _ _).mp h1
                have he : sizeOf e ≤ n := by simp_arith at ht; omega
                exact (ihT e he).2.1 cfg true (zeroOf e) inner2 values err (h3 ▸ hs)
              · exact Outcome.noConfusion h
            · rw [if_neg hk] at h
              injection h with h1
              obtain ⟨-, h3⟩ := (Prod.mk.injEq _ _ _ _).mp h1
              injection h3 with h4
              rw [← h4]
              rfl
        · by_cases hk : kindOf t = Kind.kStruct
          · rw [if_pos hk] at h
            exact hstruct cfg canSet old out values err h
          · rw [if_neg hk] at h
            injection h with h1
            obtain ⟨-, h3⟩ := (Prod.mk.injEq _ _ _ _).mp h1
            injection h3 with h4
            rw [← h4]
            rfl
      exact ⟨hbody, hstruct, hcells⟩
    · intro fs hfs cfg canSet vals out values err h
      rw [readFieldsTo.eq_def] at h
      split at h
      · injection h with h1
        obtain ⟨-, h3⟩ := (Prod.mk.injEq _ _ _ _).mp h1
        exact Option.noConfusion h3
      · injection h with h1
        obtain ⟨-, h3⟩ := (Prod.mk.injEq _ _ _ _).mp h1
        injection h3 with h4
        rw [← h4]
        rfl
      · rename_i m ft fs2 x xs
        by_cases hsk : skipField m = true
        · rw [if_pos hsk] at h
          split at h
          · rename_i xs2 err2 hr
            injection h with h1
            obtain ⟨-, h3⟩ := (Prod.mk.injEq _ _ _ _).mp h1
            have hf2 : sizeOf fs2 ≤ n := by simp_arith at hfs; omega
            exact ihF fs2 hf2 cfg canSet xs xs2 values err (h3 ▸ hr)
          · exact Outcome.noConfusion h
        · rw [if_neg hsk] at h
          by_cases han : m.anonymous = true
          · rw [if_pos han] at h
            split at h
            · exact Outcome.noConfusion h
            · rename_i x2 err2 hs
              injection h with h1
              obtain ⟨-, h3⟩ := (Prod.mk.injEq _ _ _ _).mp h1
              injection h3 with h4
              have hft : sizeOf ft ≤ n := by simp_arith at hfs; omega
              exact h4 ▸ (ihT ft hft).2.1 cfg canSet x x2 values err2 hs
            · rename_i x2 hs
              split at h
              · rename_i xs2 err2 hr
                injection h with h1
                obtain ⟨-, h3⟩ := (Prod.mk.injEq _ _ _ _).mp h1
                have hf2 : sizeOf fs2 ≤ n := by simp_arith at hfs; omega
                exact ihF fs2 hf2 cfg canSet xs xs2 values err (h3 ▸ hr)
              · exact Outcome.noConfusion h
          · rw [if_neg han] at h
            simp only [] at h
            split at h
            · split at h
              · rename_i xs2 err2 hr
                injection h with h1
                obtain ⟨-, h3⟩ := (Prod.mk.injEq _ _ _ _).mp h1
                have hf2 : sizeOf fs2 ≤ n := by simp_arith at hfs; omega
                exact ihF fs2 hf2 cfg canSet xs xs2 values err (h3 ▸ hr)
              · exact Outcome.noConfusion h
            · split at h
              · exact Outcome.noConfusion h
              · rename_i x2 err2 hc
                injection h with h1
                obtain ⟨-, h3⟩ := (Prod.mk.injEq _ _ _ _).mp h1
                injection h3 with h4
                have hft : sizeOf ft ≤ n := by simp_arith at hfs; omega
                exact h4 ▸ (ihT ft hft).2.2 cfg canSet x x2 _ err2 hc
              · rename_i x2 hc
                split at h
                · rename_i xs2 err2 hr
                  injection h with h1
                  obtain ⟨-, h3⟩ := (Prod.mk.injEq _ _ _ _).mp h1
                  have hf2 : sizeOf fs2 ≤ n := by simp_arith at hfs; omega
                  exact ihF fs2 hf2 cfg canSet xs xs2 values err (h3 ▸ hr)
                · exact Outcome.noConfusion h
            · split at h
              · exact Outcome.noConfusion h
              · rename_i x2 err2 hl
                injection h with h1
                obtain ⟨-, h3⟩ := (Prod.mk.injEq _ _ _ _).mp h1
                injection h3 with h4
                exact h4 ▸
                  (readString_group_unwrapped (sizeOf ft) ft le_rfl).2.2.1
                    cfg canSet x x2 _ err2 hl
              · rename_i x2 hl
                split at h
                · rename_i xs2 err2 hr
                  injection h with h1
                  obtain ⟨-, h3⟩ := (Prod.mk.injEq _ _ _ _).mp h1
                  have hf2 : sizeOf fs2 ≤ n := by simp_arith at hfs; omega
                  exact ihF fs2 hf2 cfg canSet xs xs2 values err (h3 ▸ hr)
                · exact Outcome.noConfusion h

/-- C4 counterexample: a conversion failure one recursive level down —
field `Int` of the row target, cell `"xyz"` — comes back from the
outermost decode verbatim, a bare `ParseInt` `NumError` carrying neither
the field name nor a path breadcrumb (`isWrapped = false`), refuting the
decode half of "each recursive level wraps the child error with the field
name/path and offending value". -/
theorem C4_counterexample :
    decodeRow Codec.default ["int"] ["xyz"]
      (.ptrT (.structT [(⟨"Int", "", true, false⟩, .intT .iw0)]))
      (.ptrV (some (.structV [.intV 0])))
      = .val (.ptrV (some (.structV [.intV 0])),
          some (.numError "ParseInt" "xyz" false)) ∧
    (Err.numError "ParseInt" "xyz" false).isWrapped = false := by
  constructor
  · show readStructTo Codec.default false _ _ [("int", Cell.leaf "xyz")] = _
    simp [readStructTo, readStructBody, readFieldsTo, skipField, tagName, tagParts,
      splitGo, splitChar, cvGet, readStringTo, readStringCore, readStringSwitch,
      IntW.bitSize, Codec.default, DefaultNilValue, DefaultEmptyValue,
      show toLowerGo "Int" = "int" from rfl,
      show (([] : List Char).asString) = "" from rfl,
      show parseIntGo "xyz" 0
        = Except.error (.numError "ParseInt" "xyz" false) from by decide]
  · rfl

/-- C4 (amended): the two halves of the claim diverge.  On encode, every
error leaving a recursive loop is wrapped with a breadcrumb — slice
elements with the element value, map entries with the key or value, struct
fields of a well-conformed value with the field name and value.  On decode
there is no wrapping at all: whatever error the row population returns is
the bare leaf error, unchanged at every structural level. -/
theorem C4_wrapping_amended :
    (∀ (cfg : Codec) (e : GoType) (xs : List GoValue) (err : Err),
      marshalSlice cfg e xs = .error err → err.isWrapped = true) ∧
    (∀ (cfg : Codec) (kt vt : GoType) (es : List (GoValue × GoValue)) (err : Err),
      marshalMap cfg kt vt es = .error err → err.isWrapped = true) ∧
    (∀ (cfg : Codec) (fs : List (FieldMeta × GoType)) (vs : List GoValue) (err : Err),
      fs.length = vs.length → marshalFields cfg fs vs = .error err →
      err.isWrapped = true) ∧
    (∀ (cfg : Codec) (header row : List String) (t : GoType) (v : GoValue)
      (out : GoValue) (err : Err),
      decodeRow cfg header row t v = .val (out, some err) →
      err.isWrapped = false) := by
  refine ⟨marshalSlice_wrapped, marshalMap_wrapped, marshalFields_wrapped, ?_⟩
  intro cfg header row t v out err h
  rw [decodeRow] at h
  rcases hb : buildCells header row [] with values | m <;> rw [hb] at h
  · exact ((readStruct_group_unwrapped (sizeOf t)).1 t le_rfl).2.1
      cfg false v out values err h
  · exact Outcome.noConfusion h

/-- Concrete instance of the amended C4 theorem: marshalling the slice
`[]uint{0}` fails with the element error wrapped as a slice-element
breadcrumb, which `isWrapped` recognises. -/
theorem C4_wrapping_amended_witness :
    (Err.wrapSliceElem "0" (Err.cantMarshal "uint")).isWrapped = true := by
  refine C4_wrapping_amended.1 Codec.default .uintT [.uintV 0]
    (.wrapSliceElem "0" (.cantMarshal "uint")) ?_
  simp [marshalSlice, marshal, marshalAfterPtr,
    show display (GoValue.uintV 0) = "0" from rfl]

end Csvencoding
